import Mathlib

/-!
OBPL bytecode virtual machine (`src/obpl_runtime.c`).

A shallow embedding of the three entry points of the OBPL runtime,
`obpl_init`, `obpl_load_bytecode` and `obpl_execute`, followed by theorems
about them.

Conventions of the embedding.

* The process-wide pointer `static OBPLState* vm` is an `Option OBPLState`
  (`none` is `NULL`) that every entry point receives and returns.
* `uint32_t` and `uint64_t` values are natural numbers; every C operation that
  can wrap is followed by an explicit `% 2 ^ 32` or `% 2 ^ 64`.
* A buffer is the list of its bytes (or 64-bit words for the stack); a pointer
  field that may be `NULL` is an `Option`.
* The outcome of `malloc`/`calloc` is not determined by the program, so each
  allocation takes a `Bool` saying whether it succeeded.
* `memcpy` in `OP_PUSH` has no bounds check.  What it finds at offsets past the
  end of the bytecode buffer is not determined by the program either; it is
  the parameter `oob`, and every theorem holds for every `oob`.
* The stack is indexed only at `sp` (PUSH, after `sp < stack_size`) and at
  `sp - 1`, `sp - 2` (ADD, after `sp ≥ 2`), so a state with
  `sp ≤ stack_size` whose stack has `stack_size` words never leaves the
  buffer.  For other states `List.getD` and `List.set` stand in for the access
  (read 0, drop the write); no theorem below depends on that choice.
* `obpl_load_bytecode` copies `size` bytes out of the caller's buffer
  (`List.take size`); callers pass a buffer of at least `size` bytes.
* The `while` loop is run with a fuel counter; running out of fuel is reported
  as `ExecResult.timeout` together with the state reached, never as a return.
-/

namespace OBPL

/-- The C struct `OBPLState`, field for field. -/
structure OBPLState where
  memory : List Nat
  mem_size : Nat
  ip : Nat
  sp : Nat
  stack : List Nat
  stack_size : Nat
  bytecode : Option (List Nat)
  bytecode_size : Nat
deriving DecidableEq, Repr

/-- Opcode numbering of the anonymous `enum` (OP_PUSH = 1, then consecutive). -/
def OP_PUSH : Nat := 1
def OP_POP : Nat := 2
def OP_ADD : Nat := 3
def OP_SUB : Nat := 4
def OP_MUL : Nat := 5
def OP_DIV : Nat := 6
def OP_STORE : Nat := 7
def OP_LOAD : Nat := 8
def OP_PRINT : Nat := 9
def OP_CALL : Nat := 10
def OP_RET : Nat := 11
def OP_JMP : Nat := 12
def OP_JMPIF : Nat := 13
def OP_EQ : Nat := 14
def OP_GT : Nat := 15
def OP_LT : Nat := 16
def OP_END : Nat := 17

/-- The function `obpl_init`: allocate the state, the zeroed memory and the zeroed
stack; any failed allocation leaves `vm = NULL`. -/
def obpl_init (allocVm allocMem allocStack : Bool) (mem_size stack_size : Nat) :
    Int × Option OBPLState :=
  if !allocVm then (-1, none)
  else if !allocMem || !allocStack then (-2, none)
  else (0, some
    { memory := List.replicate mem_size 0
      mem_size := mem_size
      ip := 0
      sp := 0
      stack := List.replicate stack_size 0
      stack_size := stack_size
      bytecode := none
      bytecode_size := 0 })

/-- The function `obpl_load_bytecode`: the old buffer is freed first, then the new
one is allocated; only after a successful allocation are the bytes copied and
`bytecode_size`, `ip` written. -/
def obpl_load_bytecode (allocOk : Bool) (bytecode : List Nat) (size : Nat)
    (vm : Option OBPLState) : Int × Option OBPLState :=
  match vm with
  | none => (-1, none)
  | some s =>
    if !allocOk then (-2, some { s with bytecode := none })
    else (0, some { s with bytecode := some (bytecode.take size),
                           bytecode_size := size,
                           ip := 0 })

/-- Byte `i` of the bytecode buffer as the machine reads it: the stored byte
inside the buffer, whatever lies in memory (`oob`) outside it. -/
def readByte (oob : Nat → Nat) (bc : List Nat) (i : Nat) : Nat :=
  match bc[i]? with
  | some b => b % 256
  | none => oob i % 256

/-- The call `memcpy(&value, &bytecode[i], 8)` on a little-endian target. -/
def readU64 (oob : Nat → Nat) (bc : List Nat) (i : Nat) : Nat :=
  readByte oob bc i
    + 256 * (readByte oob bc (i + 1)
    + 256 * (readByte oob bc (i + 2)
    + 256 * (readByte oob bc (i + 3)
    + 256 * (readByte oob bc (i + 4)
    + 256 * (readByte oob bc (i + 5)
    + 256 * (readByte oob bc (i + 6)
    + 256 * readByte oob bc (i + 7)))))))

/-- What one pass through the loop body does: go round again, or `return`. -/
inductive StepResult where
  | next (s : OBPLState)
  | ret (code : Int) (s : OBPLState)
deriving DecidableEq, Repr

/-- One pass through the body of the `while` loop of `obpl_execute` (fetch with
`ip++`, then the `switch`), entered with `ip < bytecode_size`.  The `switch`
has cases for OP_PUSH, OP_POP, OP_ADD and OP_END only and no `default`, so
every other byte falls out of the `switch` with nothing done. -/
def step (oob : Nat → Nat) (bc : List Nat) (s : OBPLState) : StepResult :=
  let opcode := readByte oob bc s.ip
  let s1 := { s with ip := (s.ip + 1) % 2 ^ 32 }
  if opcode = OP_PUSH then
    let value := readU64 oob bc s1.ip
    let s2 := { s1 with ip := (s1.ip + 8) % 2 ^ 32 }
    if s2.sp ≥ s2.stack_size then .ret (-2) s2
    else .next { s2 with stack := s2.stack.set s2.sp value,
                         sp := (s2.sp + 1) % 2 ^ 32 }
  else if opcode = OP_POP then
    if s1.sp = 0 then .ret (-3) s1
    else .next { s1 with sp := s1.sp - 1 }
  else if opcode = OP_ADD then
    if s1.sp < 2 then .ret (-3) s1
    else
      let s2 := { s1 with sp := s1.sp - 1 }
      let sum := (s2.stack.getD (s2.sp - 1) 0 + s2.stack.getD s2.sp 0) % 2 ^ 64
      .next { s2 with stack := s2.stack.set (s2.sp - 1) sum }
  else if opcode = OP_END then .ret 0 s1
  else .next s1

/-- Result of running the loop with a fuel counter. -/
inductive ExecResult where
  | done (code : Int) (s : OBPLState)
  | timeout (s : OBPLState)
deriving DecidableEq, Repr

/-- The `while (vm->ip < vm->bytecode_size)` loop and the `return 0` after it. -/
def execLoop (oob : Nat → Nat) (bc : List Nat) : Nat → OBPLState → ExecResult
  | 0, s => .timeout s
  | fuel + 1, s =>
    if s.ip < s.bytecode_size then
      match step oob bc s with
      | .ret code s' => .done code s'
      | .next s' => execLoop oob bc fuel s'
    else .done 0 s

/-- State at the head of the loop after `n` complete iterations, when the loop
is still running then (`none` once it has returned or left the loop). -/
def iterate (oob : Nat → Nat) (bc : List Nat) : Nat → OBPLState → Option OBPLState
  | 0, s => some s
  | n + 1, s =>
    if s.ip < s.bytecode_size then
      match step oob bc s with
      | .ret _ _ => none
      | .next s' => iterate oob bc n s'
    else none

/-- Result of `obpl_execute`: the returned code with the value of the global
`vm` afterwards, or the state reached when the fuel ran out. -/
inductive CallResult where
  | returned (code : Int) (vm : Option OBPLState)
  | timeout (s : OBPLState)
deriving DecidableEq, Repr

/-- The function `obpl_execute`. -/
def obpl_execute (oob : Nat → Nat) (fuel : Nat) (vm : Option OBPLState) : CallResult :=
  match vm with
  | none => .returned (-1) none
  | some s =>
    match s.bytecode with
    | none => .returned (-1) (some s)
    | some bc =>
      match execLoop oob bc fuel s with
      | .done code s' => .returned code (some s')
      | .timeout s' => .timeout s'

/-- State held by the loop result. -/
def ExecResult.state : ExecResult → OBPLState
  | .done _ s => s
  | .timeout s => s

/-- State held by a step result. -/
def StepResult.state : StepResult → OBPLState
  | .next s => s
  | .ret _ s => s

/-- Value of the global `vm` when the call has returned, or the state the loop
has reached when the fuel ran out. -/
def CallResult.vmAfter : CallResult → Option OBPLState
  | .returned _ vm => vm
  | .timeout s => some s

/-- A freshly initialised VM (all three allocations of `obpl_init` succeeded). -/
def freshVM (mem_size stack_size : Nat) : Option OBPLState :=
  (obpl_init true true true mem_size stack_size).2

/-- Load `prog` into a fresh VM (successful copy) and execute it. -/
def runFresh (oob : Nat → Nat) (fuel mem_size stack_size : Nat) (prog : List Nat) :
    CallResult :=
  obpl_execute oob fuel
    (obpl_load_bytecode true prog prog.length (freshVM mem_size stack_size)).2

/-- Little-endian 8-byte encoding of a word. -/
def le64 (a : Nat) : List Nat :=
  [a % 256, a / 256 % 256, a / 256 ^ 2 % 256, a / 256 ^ 3 % 256,
   a / 256 ^ 4 % 256, a / 256 ^ 5 % 256, a / 256 ^ 6 % 256, a / 256 ^ 7 % 256]

/-- The instruction `PUSH a` as bytes. -/
def encPush (a : Nat) : List Nat := OP_PUSH :: le64 a

/-- A PUSH/POP instruction. -/
inductive StackOp where
  | push (v : Nat)
  | pop
deriving DecidableEq, Repr

/-- Bytes of one PUSH/POP instruction. -/
def encOp : StackOp → List Nat
  | .push v => encPush v
  | .pop => [OP_POP]

/-- Bytes of a sequence of PUSH/POP instructions. -/
def encOps : List StackOp → List Nat
  | [] => []
  | op :: ops => encOp op ++ encOps ops

/-- Number of PUSH instructions in a sequence. -/
def numPush : List StackOp → Nat
  | [] => 0
  | .push _ :: ops => numPush ops + 1
  | .pop :: ops => numPush ops

/-- Number of POP instructions in a sequence. -/
def numPop : List StackOp → Nat
  | [] => 0
  | .push _ :: ops => numPop ops
  | .pop :: ops => numPop ops + 1

/-- Reference last-in-first-out model (from the wording of the specification,
not from the code): the list holds the live values, most recent first; PUSH
puts a value in front, POP removes the value in front. -/
def lifo : List StackOp → List Nat → List Nat
  | [], st => st
  | .push v :: ops, st => lifo ops (v :: st)
  | .pop :: ops, st => lifo ops st.tail

/-- A sequence stays within capacity `cap` when started at depth `d`: no POP at
depth 0 and no PUSH at depth `cap`. -/
def withinCapacity (cap : Nat) : List StackOp → Nat → Bool
  | [], _ => true
  | .push _ :: ops, d => decide (d < cap) && withinCapacity cap ops (d + 1)
  | .pop :: ops, d => decide (0 < d) && withinCapacity cap ops (d - 1)

/-- Every immediate of the sequence is a 64-bit word. -/
def wordsOK : List StackOp → Bool
  | [] => true
  | .push v :: ops => decide (v < 2 ^ 64) && wordsOK ops
  | .pop :: ops => wordsOK ops

/-- The state in which `runFresh` enters the loop, written out. -/
def loaded (mem_size stack_size : Nat) (prog : List Nat) : OBPLState :=
  { memory := List.replicate mem_size 0
    mem_size := mem_size
    ip := 0
    sp := 0
    stack := List.replicate stack_size 0
    stack_size := stack_size
    bytecode := some prog
    bytecode_size := prog.length }

/-- Turn the result of the loop into the result of the call. -/
def toCall : ExecResult → CallResult
  | .done code s => .returned code (some s)
  | .timeout s => .timeout s

end OBPL

/-!
PEPx pixel storage (`src/OBPI/pepx_core.c`).

The global `g_ctx` is an `Option PEPxContext`.  A buffer is the list of its
bytes.  An access outside a buffer has no defined result in C; every function
below that indexes a buffer returns an `Option`, and `none` means that the call
has made such an access.
-/

namespace PEPx

/-- The C struct `PEPxPlane`. -/
structure PEPxPlane where
  data : List Nat
  width : Nat
  height : Nat
  channels : Nat
deriving DecidableEq, Repr

/-- The C struct `PEPxContext`. -/
structure PEPxContext where
  planes : List PEPxPlane
  plane_count : Nat
  dimensions : Nat
  bits_per_channel : Nat
deriving DecidableEq, Repr

/-- The plane that iteration `i` of the plane loop of `pepx_init` sets up:
`plane_size = dimensions * dimensions * 4` is computed in `uint32_t`, and byte
`j` is `(uint8_t)(rand() % 4)`, with `rand i j` the value `rand()` returns
there. -/
def initPlane (rand : Nat → Nat → Nat) (dimensions i : Nat) : PEPxPlane :=
  { data := (List.range (dimensions * dimensions % 2 ^ 32 * 4 % 2 ^ 32)).map
      (fun j => rand i j % 4 % 256)
    width := dimensions
    height := dimensions
    channels := 4 }

/-- Iterations `i, i+1, .., i+n-1` of the plane loop of `pepx_init`; `none`
when a plane's `malloc` fails (`allocPlane i = false`). -/
def initPlanes (allocPlane : Nat → Bool) (rand : Nat → Nat → Nat) (dimensions : Nat) :
    Nat → Nat → Option (List PEPxPlane)
  | 0, _ => some []
  | n + 1, i =>
    if !allocPlane i then none
    else
      match initPlanes allocPlane rand dimensions n (i + 1) with
      | none => none
      | some ps => some (initPlane rand dimensions i :: ps)

/-- The function `pepx_init`; the three allocation outcomes and the values of
`rand()` are parameters. -/
def pepx_init (allocCtx allocPlanes : Bool) (allocPlane : Nat → Bool)
    (rand : Nat → Nat → Nat) (g_ctx : Option PEPxContext) (dimensions plane_count : Nat) :
    Int × Option PEPxContext :=
  match g_ctx with
  | some ctx => (-1, some ctx)
  | none =>
    if !allocCtx then (-2, none)
    else if !allocPlanes then (-3, none)
    else
      match initPlanes allocPlane rand dimensions plane_count 0 with
      | none => (-4, none)
      | some ps =>
        (0, some { planes := ps
                   plane_count := plane_count
                   dimensions := dimensions
                   bits_per_channel := 2 })

/-- The `uint32_t pixel_offset` of loop iteration `i`:
`pixel_idx = start_pixel + i`, `pixel_offset = pixel_idx * 4`. -/
def pixelOffset (start_pixel i : Nat) : Nat :=
  (start_pixel + i) % 2 ^ 32 * 4 % 2 ^ 32

/-- One statement `data[k] = (data[k] & 0xFC) | chunk` on the plane bytes. -/
def writeChannel (d : List Nat) (k chunk : Nat) : Option (List Nat) :=
  match d[k]? with
  | none => none
  | some p => some (d.set k (((p &&& 0xFC) ||| chunk) % 256))

/-- Body of the loop of `pepx_store_data` after `byte = data[i]`: the four
channel bytes at `pixel_offset .. pixel_offset + 3` each take two bits. -/
def storePixel (d : List Nat) (pixel_offset byte : Nat) : Option (List Nat) :=
  match writeChannel d pixel_offset ((byte >>> 6) &&& 0x03) with
  | none => none
  | some d0 =>
    match writeChannel d0 ((pixel_offset + 1) % 2 ^ 32) ((byte >>> 4) &&& 0x03) with
    | none => none
    | some d1 =>
      match writeChannel d1 ((pixel_offset + 2) % 2 ^ 32) ((byte >>> 2) &&& 0x03) with
      | none => none
      | some d2 => writeChannel d2 ((pixel_offset + 3) % 2 ^ 32) (byte &&& 0x03)

/-- Iterations `i, i+1, .., i+n-1` of the loop of `pepx_store_data` on the plane
bytes `d`; `data` is the caller's buffer. -/
def storeLoop (data : List Nat) (start_pixel : Nat) : Nat → Nat → List Nat → Option (List Nat)
  | 0, _, d => some d
  | n + 1, i, d =>
    match data[i]? with
    | none => none
    | some byte =>
      match storePixel d (pixelOffset start_pixel i) (byte % 256) with
      | none => none
      | some d' => storeLoop data start_pixel n (i + 1) d'

/-- The function `pepx_store_data`: returned code and `g_ctx` afterwards. -/
def pepx_store_data (g_ctx : Option PEPxContext) (plane_idx start_x start_y : Nat)
    (data : List Nat) (length : Nat) : Option (Int × Option PEPxContext) :=
  match g_ctx with
  | none => some (-1, none)
  | some ctx =>
    if plane_idx ≥ ctx.plane_count then some (-1, some ctx)
    else
      match ctx.planes[plane_idx]? with
      | none => none
      | some plane =>
        let max_pixels := plane.width * plane.height % 2 ^ 32
        let start_pixel := (start_y * plane.width % 2 ^ 32 + start_x) % 2 ^ 32
        if (start_pixel + length) % 2 ^ 32 > max_pixels then some (-2, some ctx)
        else
          match storeLoop data start_pixel length 0 plane.data with
          | none => none
          | some d =>
            some (0, some { ctx with
              planes := ctx.planes.set plane_idx { plane with data := d } })

/-- Body of the loop of `pepx_retrieve_data`: the byte assembled from the low
two bits of the four channel bytes (`byte` is a `uint8_t`). -/
def readPixel (d : List Nat) (pixel_offset : Nat) : Option Nat :=
  match d[pixel_offset]? with
  | none => none
  | some p0 =>
    match d[(pixel_offset + 1) % 2 ^ 32]? with
    | none => none
    | some p1 =>
      match d[(pixel_offset + 2) % 2 ^ 32]? with
      | none => none
      | some p2 =>
        match d[(pixel_offset + 3) % 2 ^ 32]? with
        | none => none
        | some p3 =>
          let b0 := (0 ||| ((p0 &&& 0x03) <<< 6)) % 256
          let b1 := (b0 ||| ((p1 &&& 0x03) <<< 4)) % 256
          let b2 := (b1 ||| ((p2 &&& 0x03) <<< 2)) % 256
          some ((b2 ||| (p3 &&& 0x03)) % 256)

/-- Iterations `i, i+1, .., i+n-1` of the loop of `pepx_retrieve_data`: the bytes
written to `output[i], .., output[i+n-1]`. -/
def retrieveLoop (d : List Nat) (start_pixel : Nat) : Nat → Nat → Option (List Nat)
  | 0, _ => some []
  | n + 1, i =>
    match readPixel d (pixelOffset start_pixel i) with
    | none => none
    | some b =>
      match retrieveLoop d start_pixel n (i + 1) with
      | none => none
      | some bs => some (b :: bs)

/-- The function `pepx_retrieve_data`: returned code and the bytes written to
`output[0 .. length)` (nothing is written when the code is not 0). -/
def pepx_retrieve_data (g_ctx : Option PEPxContext) (plane_idx start_x start_y : Nat)
    (length : Nat) : Option (Int × List Nat) :=
  match g_ctx with
  | none => some (-1, [])
  | some ctx =>
    if plane_idx ≥ ctx.plane_count then some (-1, [])
    else
      match ctx.planes[plane_idx]? with
      | none => none
      | some plane =>
        let max_pixels := plane.width * plane.height % 2 ^ 32
        let start_pixel := (start_y * plane.width % 2 ^ 32 + start_x) % 2 ^ 32
        if (start_pixel + length) % 2 ^ 32 > max_pixels then some (-2, [])
        else
          match retrieveLoop plane.data start_pixel length 0 with
          | none => none
          | some out => some (0, out)

/-- A plane whose buffer holds `width * height * 4` bytes, that size being a
32-bit value as every size `pepx_init` passes to `malloc` is. -/
def planeOK (p : PEPxPlane) : Bool :=
  decide (p.data.length = p.width * p.height * 4) && decide (p.data.length < 2 ^ 32)
    && p.data.all (fun b => decide (b < 256))

/-- A context with `plane_count` planes, each satisfying `planeOK`. -/
def ctxOK (ctx : PEPxContext) : Bool :=
  decide (ctx.planes.length = ctx.plane_count) && ctx.planes.all planeOK

end PEPx

namespace OBPL

/-! ## Reading instructions out of the buffer -/

theorem getElem?_of_drop_eq_cons {bc : List Nat} {i x : Nat} {rest : List Nat}
    (h : bc.drop i = x :: rest) : bc[i]? = some x := by
  have h0 : (bc.drop i)[0]? = some x := by rw [h]; simp
  rw [List.getElem?_drop] at h0
  simpa using h0

theorem drop_succ_of_drop_eq_cons {bc : List Nat} {i x : Nat} {rest : List Nat}
    (h : bc.drop i = x :: rest) : bc.drop (i + 1) = rest := by
  have : bc.drop (i + 1) = (bc.drop i).drop 1 := by
    rw [List.drop_drop, Nat.add_comm]
  rw [this, h]; rfl

theorem lt_length_of_drop_eq_cons {bc : List Nat} {i x : Nat} {rest : List Nat}
    (h : bc.drop i = x :: rest) : i < bc.length := by
  by_contra hlt
  rw [List.drop_eq_nil_of_le (by omega)] at h
  exact List.noConfusion h

theorem readByte_of_drop {oob : Nat → Nat} {bc : List Nat} {i x : Nat} {rest : List Nat}
    (h : bc.drop i = x :: rest) : readByte oob bc i = x % 256 := by
  simp [readByte, getElem?_of_drop_eq_cons h]

theorem le64_decode (v : Nat) :
    v % 256 % 256 + 256 * (v / 256 % 256 % 256 + 256 * (v / 256 ^ 2 % 256 % 256
      + 256 * (v / 256 ^ 3 % 256 % 256 + 256 * (v / 256 ^ 4 % 256 % 256
      + 256 * (v / 256 ^ 5 % 256 % 256 + 256 * (v / 256 ^ 6 % 256 % 256
      + 256 * (v / 256 ^ 7 % 256 % 256))))))) = v % 2 ^ 64 := by
  norm_num
  omega

theorem readU64_of_drop {oob : Nat → Nat} {bc : List Nat} {i v : Nat} {rest : List Nat}
    (h : bc.drop i = le64 v ++ rest) : readU64 oob bc i = v % 2 ^ 64 := by
  simp only [le64, List.cons_append, List.nil_append] at h
  have h1 := drop_succ_of_drop_eq_cons h
  have h2 := drop_succ_of_drop_eq_cons h1
  have h3 := drop_succ_of_drop_eq_cons h2
  have h4 := drop_succ_of_drop_eq_cons h3
  have h5 := drop_succ_of_drop_eq_cons h4
  have h6 := drop_succ_of_drop_eq_cons h5
  have h7 := drop_succ_of_drop_eq_cons h6
  unfold readU64
  rw [readByte_of_drop h, readByte_of_drop h1, readByte_of_drop h2, readByte_of_drop h3,
    readByte_of_drop h4, readByte_of_drop h5, readByte_of_drop h6, readByte_of_drop h7]
  exact le64_decode v

/-! ## One loop iteration on each handled opcode -/

theorem step_push {oob : Nat → Nat} {bc : List Nat} {s : OBPLState} {v : Nat}
    {rest : List Nat} (h : bc.drop s.ip = encPush v ++ rest) (hip : s.ip + 9 < 2 ^ 32) :
    step oob bc s =
      if s.sp ≥ s.stack_size then .ret (-2) { s with ip := s.ip + 9 }
      else .next { s with ip := s.ip + 9, stack := s.stack.set s.sp (v % 2 ^ 64),
                          sp := (s.sp + 1) % 2 ^ 32 } := by
  have h1 : bc.drop (s.ip + 1) = le64 v ++ rest := drop_succ_of_drop_eq_cons h
  have e1 : (s.ip + 1) % 2 ^ 32 = s.ip + 1 := Nat.mod_eq_of_lt (by omega)
  have e2 : (s.ip + 1 + 8) % 2 ^ 32 = s.ip + 9 := Nat.mod_eq_of_lt (by omega)
  simp only [step, readByte_of_drop h, e1, e2, readU64_of_drop h1, OP_PUSH]
  simp

theorem step_pop {oob : Nat → Nat} {bc : List Nat} {s : OBPLState}
    {rest : List Nat} (h : bc.drop s.ip = OP_POP :: rest) (hip : s.ip + 1 < 2 ^ 32) :
    step oob bc s =
      if s.sp = 0 then .ret (-3) { s with ip := s.ip + 1 }
      else .next { s with ip := s.ip + 1, sp := s.sp - 1 } := by
  have e1 : (s.ip + 1) % 2 ^ 32 = s.ip + 1 := Nat.mod_eq_of_lt hip
  simp only [step, readByte_of_drop h, e1, OP_PUSH, OP_POP]
  simp

theorem step_add {oob : Nat → Nat} {bc : List Nat} {s : OBPLState}
    {rest : List Nat} (h : bc.drop s.ip = OP_ADD :: rest) (hip : s.ip + 1 < 2 ^ 32) :
    step oob bc s =
      if s.sp < 2 then .ret (-3) { s with ip := s.ip + 1 }
      else .next { s with ip := s.ip + 1, sp := s.sp - 1,
                          stack := s.stack.set (s.sp - 1 - 1)
                            ((s.stack.getD (s.sp - 1 - 1) 0 + s.stack.getD (s.sp - 1) 0)
                              % 2 ^ 64) } := by
  have e1 : (s.ip + 1) % 2 ^ 32 = s.ip + 1 := Nat.mod_eq_of_lt hip
  simp only [step, readByte_of_drop h, e1, OP_PUSH, OP_POP, OP_ADD]
  simp

theorem step_end {oob : Nat → Nat} {bc : List Nat} {s : OBPLState}
    {rest : List Nat} (h : bc.drop s.ip = OP_END :: rest) (hip : s.ip + 1 < 2 ^ 32) :
    step oob bc s = .ret 0 { s with ip := s.ip + 1 } := by
  have e1 : (s.ip + 1) % 2 ^ 32 = s.ip + 1 := Nat.mod_eq_of_lt hip
  simp only [step, readByte_of_drop h, e1, OP_PUSH, OP_POP, OP_ADD, OP_END]
  simp

/-- A byte with no `case` in the `switch` only advances `ip`. -/
theorem step_unhandled {oob : Nat → Nat} {bc : List Nat} {s : OBPLState} {x : Nat}
    {rest : List Nat} (h : bc.drop s.ip = x :: rest) (hip : s.ip + 1 < 2 ^ 32)
    (h1 : x % 256 ≠ OP_PUSH) (h2 : x % 256 ≠ OP_POP) (h3 : x % 256 ≠ OP_ADD)
    (h17 : x % 256 ≠ OP_END) :
    step oob bc s = .next { s with ip := s.ip + 1 } := by
  have e1 : (s.ip + 1) % 2 ^ 32 = s.ip + 1 := Nat.mod_eq_of_lt hip
  simp only [step, readByte_of_drop h, e1, if_neg h1, if_neg h2, if_neg h3, if_neg h17]

theorem execLoop_next {oob : Nat → Nat} {bc : List Nat} {s s' : OBPLState} (fuel : Nat)
    (hlt : s.ip < s.bytecode_size) (hs : step oob bc s = .next s') :
    execLoop oob bc (fuel + 1) s = execLoop oob bc fuel s' := by
  simp [execLoop, hlt, hs]

theorem execLoop_ret {oob : Nat → Nat} {bc : List Nat} {s s' : OBPLState} {code : Int}
    (fuel : Nat) (hlt : s.ip < s.bytecode_size) (hs : step oob bc s = .ret code s') :
    execLoop oob bc (fuel + 1) s = .done code s' := by
  simp [execLoop, hlt, hs]

theorem execLoop_exit {oob : Nat → Nat} {bc : List Nat} {s : OBPLState}
    (fuel : Nat) (hge : ¬ s.ip < s.bytecode_size) :
    execLoop oob bc (fuel + 1) s = .done 0 s := by
  simp [execLoop, hge]

theorem obpl_execute_some {oob : Nat → Nat} {fuel : Nat} {s : OBPLState} {bc : List Nat}
    (h : s.bytecode = some bc) :
    obpl_execute oob fuel (some s) = toCall (execLoop oob bc fuel s) := by
  simp only [obpl_execute, h]
  cases execLoop oob bc fuel s <;> rfl

theorem runFresh_eq (oob : Nat → Nat) (fuel mem_size stack_size : Nat) (prog : List Nat) :
    runFresh oob fuel mem_size stack_size prog
      = toCall (execLoop oob prog fuel (loaded mem_size stack_size prog)) := by
  have h : (obpl_load_bytecode true prog prog.length (freshVM mem_size stack_size)).2
      = some (loaded mem_size stack_size prog) := by
    simp [obpl_load_bytecode, freshVM, obpl_init, loaded]
  have hb : (loaded mem_size stack_size prog).bytecode = some prog := rfl
  rw [runFresh, h, obpl_execute_some hb]

/-! ## The loop across one instruction -/

theorem execLoop_push {o : Nat → Nat} {bc : List Nat} {s : OBPLState} {v : Nat}
    {r : List Nat} (fuel : Nat) (h : bc.drop s.ip = encPush v ++ r)
    (hip : s.ip + 9 < 2 ^ 32) (hlt : s.ip < s.bytecode_size)
    (hsp : s.sp < s.stack_size) (hss : s.stack_size < 2 ^ 32) :
    execLoop o bc (fuel + 1) s = execLoop o bc fuel
      { s with ip := s.ip + 9, stack := s.stack.set s.sp (v % 2 ^ 64), sp := s.sp + 1 } := by
  have e : (s.sp + 1) % 2 ^ 32 = s.sp + 1 := Nat.mod_eq_of_lt (by omega)
  rw [execLoop_next fuel hlt]
  rw [step_push h hip, if_neg (by omega), e]

theorem execLoop_push_overflow {o : Nat → Nat} {bc : List Nat} {s : OBPLState} {v : Nat}
    {r : List Nat} (fuel : Nat) (h : bc.drop s.ip = encPush v ++ r)
    (hip : s.ip + 9 < 2 ^ 32) (hlt : s.ip < s.bytecode_size)
    (hsp : s.stack_size ≤ s.sp) :
    execLoop o bc (fuel + 1) s = .done (-2) { s with ip := s.ip + 9 } := by
  rw [execLoop_ret fuel hlt]
  rw [step_push h hip, if_pos hsp]

theorem execLoop_pop {o : Nat → Nat} {bc : List Nat} {s : OBPLState}
    {r : List Nat} (fuel : Nat) (h : bc.drop s.ip = OP_POP :: r)
    (hip : s.ip + 1 < 2 ^ 32) (hlt : s.ip < s.bytecode_size) (hsp : s.sp ≠ 0) :
    execLoop o bc (fuel + 1) s = execLoop o bc fuel
      { s with ip := s.ip + 1, sp := s.sp - 1 } := by
  rw [execLoop_next fuel hlt]
  rw [step_pop h hip, if_neg hsp]

theorem execLoop_add {o : Nat → Nat} {bc : List Nat} {s : OBPLState}
    {r : List Nat} (fuel : Nat) (h : bc.drop s.ip = OP_ADD :: r)
    (hip : s.ip + 1 < 2 ^ 32) (hlt : s.ip < s.bytecode_size) (hsp : 2 ≤ s.sp) :
    execLoop o bc (fuel + 1) s = execLoop o bc fuel
      { s with ip := s.ip + 1, sp := s.sp - 1,
               stack := s.stack.set (s.sp - 1 - 1)
                 ((s.stack.getD (s.sp - 1 - 1) 0 + s.stack.getD (s.sp - 1) 0) % 2 ^ 64) } := by
  rw [execLoop_next fuel hlt]
  rw [step_add h hip, if_neg (by omega)]

theorem execLoop_end {o : Nat → Nat} {bc : List Nat} {s : OBPLState}
    {r : List Nat} (fuel : Nat) (h : bc.drop s.ip = OP_END :: r)
    (hip : s.ip + 1 < 2 ^ 32) (hlt : s.ip < s.bytecode_size) :
    execLoop o bc (fuel + 1) s = .done 0 { s with ip := s.ip + 1 } :=
  execLoop_ret fuel hlt (step_end h hip)

theorem execLoop_unhandled {o : Nat → Nat} {bc : List Nat} {s : OBPLState} {x : Nat}
    {r : List Nat} (fuel : Nat) (h : bc.drop s.ip = x :: r) (hip : s.ip + 1 < 2 ^ 32)
    (hlt : s.ip < s.bytecode_size)
    (h1 : x % 256 ≠ OP_PUSH) (h2 : x % 256 ≠ OP_POP) (h3 : x % 256 ≠ OP_ADD)
    (h17 : x % 256 ≠ OP_END) :
    execLoop o bc (fuel + 1) s = execLoop o bc fuel { s with ip := s.ip + 1 } :=
  execLoop_next fuel hlt (step_unhandled h hip h1 h2 h3 h17)

/-! ## The loop across a sequence of PUSH and POP instructions -/

theorem take_succ_set {l : List Nat} {n : Nat} (v : Nat) (h : n < l.length) :
    (l.set n v).take (n + 1) = l.take n ++ [v] := by
  induction l generalizing n with
  | nil => simp at h
  | cons x xs ih =>
    cases n with
    | zero => simp
    | succ k =>
      have hk : k < xs.length := by simpa using h
      simp [List.set, List.take, ih hk]

theorem reverse_take_pred {l : List Nat} {n : Nat} (h0 : n ≠ 0) (h : n ≤ l.length) :
    (l.take (n - 1)).reverse = (l.take n).reverse.tail := by
  obtain ⟨k, rfl⟩ : ∃ k, n = k + 1 := ⟨n - 1, by omega⟩
  have hk : k < l.length := by omega
  have e : l.take (k + 1) = l.take k ++ [l[k]] := by
    rw [List.take_succ, List.getElem?_eq_getElem hk]; rfl
  rw [e, List.reverse_append]
  rfl

theorem drop_add_of_drop_eq_append {c p r : List Nat} {i : Nat}
    (h : c.drop i = p ++ r) : c.drop (i + p.length) = r := by
  have : c.drop (i + p.length) = (c.drop i).drop p.length := by
    rw [List.drop_drop, Nat.add_comm]
  rw [this, h, List.drop_left]

theorem add_length_le_of_drop_eq_append {bc pre rest : List Nat} {i : Nat}
    (h : bc.drop i = pre ++ rest) (hne : pre ≠ []) : i + pre.length ≤ bc.length := by
  have hl := congrArg List.length h
  rw [List.length_drop, List.length_append] at hl
  have : 0 < pre.length := List.length_pos.mpr hne
  omega

theorem execLoop_ops {o : Nat → Nat} {c : List Nat} (hbc : c.length < 2 ^ 32) :
    ∀ (ops : List StackOp) (rest : List Nat) (fuel : Nat) (s : OBPLState),
      c.drop s.ip = encOps ops ++ rest →
      s.bytecode_size = c.length → s.stack.length = s.stack_size →
      s.stack_size < 2 ^ 32 → s.sp ≤ s.stack_size →
      withinCapacity s.stack_size ops s.sp = true → wordsOK ops = true →
      ∃ s', execLoop o c (fuel + ops.length) s = execLoop o c fuel s' ∧
        s'.ip = s.ip + (encOps ops).length ∧
        s'.sp + numPop ops = s.sp + numPush ops ∧
        s'.stack.take s'.sp = (lifo ops (s.stack.take s.sp).reverse).reverse ∧
        s'.stack.length = s.stack.length ∧ s'.stack_size = s.stack_size ∧
        s'.bytecode_size = s.bytecode_size ∧ s'.sp ≤ s'.stack_size := by
  intro ops
  induction ops with
  | nil =>
    intro rest fuel s _ _ _ _ hsp _ _
    exact ⟨s, rfl, by simp [encOps], by simp [numPop, numPush], by simp [lifo],
      rfl, rfl, rfl, hsp⟩
  | cons op ops ih =>
    intro rest fuel s hd hsz hlen hss hsp hcap hw
    cases op with
    | push v =>
      simp only [withinCapacity, Bool.and_eq_true, decide_eq_true_eq] at hcap
      simp only [wordsOK, Bool.and_eq_true, decide_eq_true_eq] at hw
      have hd1 : c.drop s.ip = encPush v ++ (encOps ops ++ rest) := by
        rw [hd]; simp [encOps, encOp]
      have hle := add_length_le_of_drop_eq_append hd1 (by simp [encPush])
      have hl9 : (encPush v).length = 9 := rfl
      rw [hl9] at hle
      have hd2 : c.drop (s.ip + 9) = encOps ops ++ rest := by
        have := drop_add_of_drop_eq_append hd1
        rwa [hl9] at this
      have hstep := execLoop_push (o := o) (fuel + ops.length) hd1 (by omega)
        (by omega) hcap.1 hss
      obtain ⟨s', h1, h2, h3, h4, h5, h6, h7, h8⟩ :=
        ih rest fuel
          { s with ip := s.ip + 9, stack := s.stack.set s.sp (v % 2 ^ 64), sp := s.sp + 1 }
          hd2 hsz (by simpa using hlen) hss (by simpa using hcap.1) hcap.2 hw.2
      refine ⟨s', ?_, ?_, ?_, ?_, ?_, h6, h7, h8⟩
      · rw [← h1, ← hstep]; rfl
      · rw [h2]; simp [encOps, encOp, hl9]; omega
      · simp only [numPop, numPush]; simp only at h3; omega
      · rw [h4]
        simp only [lifo]
        rw [take_succ_set _ (by omega), Nat.mod_eq_of_lt hw.1]
        simp
      · rw [h5]; simp
    | pop =>
      simp only [withinCapacity, Bool.and_eq_true, decide_eq_true_eq] at hcap
      simp only [wordsOK] at hw
      have hd1 : c.drop s.ip = OP_POP :: (encOps ops ++ rest) := by
        rw [hd]; simp [encOps, encOp]
      have hlt := lt_length_of_drop_eq_cons hd1
      have hd2 : c.drop (s.ip + 1) = encOps ops ++ rest := drop_succ_of_drop_eq_cons hd1
      have hstep := execLoop_pop (o := o) (fuel + ops.length) hd1 (by omega)
        (by omega) (by omega)
      obtain ⟨s', h1, h2, h3, h4, h5, h6, h7, h8⟩ :=
        ih rest fuel { s with ip := s.ip + 1, sp := s.sp - 1 }
          hd2 hsz hlen hss (by simp; omega) hcap.2 hw
      refine ⟨s', ?_, ?_, ?_, ?_, h5, h6, h7, h8⟩
      · rw [← h1, ← hstep]; rfl
      · rw [h2]; simp [encOps, encOp]; omega
      · simp only [numPop, numPush]; simp only at h3; omega
      · rw [h4]
        simp only [lifo]
        rw [reverse_take_pred (by omega) (by omega)]

theorem encOps_append (xs ys : List StackOp) :
    encOps (xs ++ ys) = encOps xs ++ encOps ys := by
  induction xs with
  | nil => rfl
  | cons x xs ih => simp [encOps, ih]

theorem length_encOps_push (vs : List Nat) :
    (encOps (vs.map .push)).length = 9 * vs.length := by
  induction vs with
  | nil => rfl
  | cons x xs ih =>
    have hl9 : (encPush x).length = 9 := rfl
    simp [encOps, encOp, ih, hl9]; omega

theorem withinCapacity_push (cap : Nat) (vs : List Nat) (d : Nat) (h : d + vs.length ≤ cap) :
    withinCapacity cap (vs.map .push) d = true := by
  induction vs generalizing d with
  | nil => rfl
  | cons x xs ih =>
    simp only [List.length_cons] at h
    simp only [List.map, withinCapacity, Bool.and_eq_true, decide_eq_true_eq]
    exact ⟨by omega, ih (d + 1) (by omega)⟩

theorem wordsOK_push (vs : List Nat) (h : ∀ x ∈ vs, x < 2 ^ 64) :
    wordsOK (vs.map .push) = true := by
  induction vs with
  | nil => rfl
  | cons x xs ih =>
    simp only [List.map, wordsOK, Bool.and_eq_true, decide_eq_true_eq]
    exact ⟨h x (by simp), ih (fun y hy => h y (by simp [hy]))⟩

theorem lifo_push (vs st : List Nat) : lifo (vs.map .push) st = vs.reverse ++ st := by
  induction vs generalizing st with
  | nil => rfl
  | cons x xs ih => simp [lifo, ih]

theorem numPush_push (vs : List Nat) : numPush (vs.map .push) = vs.length := by
  induction vs with
  | nil => rfl
  | cons x xs ih => simp [numPush, ih]

theorem numPop_push (vs : List Nat) : numPop (vs.map .push) = 0 := by
  induction vs with
  | nil => rfl
  | cons x xs ih => simp [numPop, ih]

/-- C2: a PUSH/POP sequence that stays within capacity, run on a fresh VM,
returns 0; the final `sp` is the number of PUSHes minus the number of POPs and
`stack[0..sp)` holds the live values of the reference LIFO model, oldest
first.  Besides the capacity condition the hypotheses only say that the
immediates are 64-bit words and that `stack_size` and the program size are
32-bit values, as their C types require. -/
theorem push_pop_lifo (oob : Nat → Nat) (fuel mem_size stack_size : Nat)
    (ops : List StackOp) (hcap : withinCapacity stack_size ops 0 = true)
    (hw : wordsOK ops = true) (hsz : (encOps ops).length < 2 ^ 32)
    (hss : stack_size < 2 ^ 32) (hf : ops.length < fuel) :
    ∃ s', runFresh oob fuel mem_size stack_size (encOps ops) = .returned 0 (some s') ∧
      numPop ops ≤ numPush ops ∧ s'.sp = numPush ops - numPop ops ∧
      s'.stack.take s'.sp = (lifo ops []).reverse := by
  obtain ⟨k, rfl⟩ : ∃ k, fuel = (k + 1) + ops.length := ⟨fuel - ops.length - 1, by omega⟩
  rw [runFresh_eq]
  obtain ⟨s', h1, h2, h3, h4, _, _, h7, _⟩ :=
    execLoop_ops (o := oob) hsz ops [] (k + 1) (loaded mem_size stack_size (encOps ops))
      (by simp [loaded]) rfl (by simp [loaded]) hss (by simp [loaded]) hcap hw
  have hexit : ¬ s'.ip < s'.bytecode_size := by
    rw [h2, h7]; simp [loaded]
  rw [h1, execLoop_exit k hexit]
  refine ⟨s', rfl, ?_, ?_, ?_⟩
  · simp only [loaded] at h3; omega
  · simp only [loaded] at h3; omega
  · rw [h4]; simp [loaded]

/-- C2 at `PUSH 5; PUSH 7; POP; PUSH 9` on a two-slot stack. -/
theorem push_pop_lifo_witness :
    ∃ s', runFresh (fun _ => 0) 5 0 2 (encOps [.push 5, .push 7, .pop, .push 9])
        = .returned 0 (some s') ∧
      numPop [.push 5, .push 7, .pop, .push 9] ≤ numPush [.push 5, .push 7, .pop, .push 9] ∧
      s'.sp = 2 ∧ s'.stack.take s'.sp = [5, 9] :=
  push_pop_lifo (fun _ => 0) 5 0 2 [.push 5, .push 7, .pop, .push 9]
    (by decide) (by decide) (by decide) (by decide) (by decide)

/-- C3: with `stack_size = n` (the length of `vs`), the program of `n + 1`
PUSHes `vs ++ [v]` returns -2 from its last PUSH (`ip` has passed all
`9 * (n + 1)` bytes) with `sp = n` and the stack holding exactly `vs` in order;
the program of the first `n` PUSHes returns 0 with the same stack.  The
immediates are 64-bit words and the `9 * (n + 1)` bytes of the program fit the
`uint32_t` size that `obpl_load_bytecode` takes. -/
theorem push_overflow (oob : Nat → Nat) (fuel mem_size : Nat) (vs : List Nat) (v : Nat)
    (hw : ∀ x ∈ vs, x < 2 ^ 64) (hsz : 9 * (vs.length + 1) < 2 ^ 32)
    (hf : vs.length + 1 < fuel) :
    (∃ s', runFresh oob fuel mem_size vs.length (encOps ((vs ++ [v]).map .push))
        = .returned (-2) (some s') ∧
      s'.sp = vs.length ∧ s'.stack = vs ∧ s'.ip = 9 * (vs.length + 1)) ∧
    (∃ s', runFresh oob fuel mem_size vs.length (encOps (vs.map .push))
        = .returned 0 (some s') ∧ s'.sp = vs.length ∧ s'.stack = vs) := by
  obtain ⟨k, rfl⟩ : ∃ k, fuel = (k + 1) + vs.length := ⟨fuel - vs.length - 1, by omega⟩
  have hss : vs.length < 2 ^ 32 := by omega
  have hstack : ∀ s' : OBPLState, s'.stack.length = vs.length → s'.sp = vs.length →
      s'.stack.take s'.sp = vs → s'.stack = vs := by
    intro s' hl hsp ht
    rw [hsp, ← hl, List.take_length] at ht
    exact ht
  constructor
  · rw [runFresh_eq]
    have hprog : encOps ((vs ++ [v]).map .push) = encOps (vs.map .push) ++ encPush v := by
      rw [List.map_append, encOps_append]; simp [encOps, encOp]
    have hlen : (encOps ((vs ++ [v]).map .push)).length = 9 * (vs.length + 1) := by
      rw [length_encOps_push]; simp
    obtain ⟨s', h1, h2, h3, h4, h5, h6, h7, _⟩ :=
      execLoop_ops (o := oob) (c := encOps ((vs ++ [v]).map .push)) (by omega)
        (vs.map .push) (encPush v) (k + 1)
        (loaded mem_size vs.length (encOps ((vs ++ [v]).map .push)))
        (by show List.drop 0 _ = _; rw [List.drop_zero]; exact hprog) rfl
        (by simp [loaded]) hss (by simp [loaded])
        (withinCapacity_push _ _ _ (by simp [loaded])) (wordsOK_push vs hw)
    rw [List.length_map] at h1
    rw [numPop_push, numPush_push] at h3
    rw [length_encOps_push] at h2
    simp only [loaded, List.length_replicate] at h2 h3 h4 h5 h6 h7
    have hsp : s'.sp = vs.length := by omega
    have hd : (encOps ((vs ++ [v]).map .push)).drop s'.ip = encPush v ++ [] := by
      have := drop_add_of_drop_eq_append (c := encOps ((vs ++ [v]).map .push))
        (i := 0) (p := encOps (vs.map .push)) (r := encPush v)
        (by rw [List.drop_zero]; exact hprog)
      rw [length_encOps_push] at this
      rw [h2, List.append_nil]; exact this
    rw [h1, execLoop_push_overflow k hd (by omega) (by rw [h7, h2, hlen]; omega)
      (by omega)]
    refine ⟨_, rfl, hsp, ?_, ?_⟩
    · refine hstack s' h5 hsp ?_
      rw [h4, lifo_push]; simp
    · show s'.ip + 9 = _
      omega
  · rw [runFresh_eq]
    obtain ⟨s', h1, h2, h3, h4, h5, h6, h7, _⟩ :=
      execLoop_ops (o := oob) (c := encOps (vs.map .push))
        (by rw [length_encOps_push]; omega)
        (vs.map .push) [] (k + 1)
        (loaded mem_size vs.length (encOps (vs.map .push)))
        (by simp [loaded]) rfl (by simp [loaded]) hss (by simp [loaded])
        (withinCapacity_push _ _ _ (by simp [loaded])) (wordsOK_push vs hw)
    rw [List.length_map] at h1
    rw [numPop_push, numPush_push] at h3
    simp only [loaded, List.length_replicate] at h2 h3 h4 h5 h6 h7
    have hsp : s'.sp = vs.length := by omega
    have hexit : ¬ s'.ip < s'.bytecode_size := by rw [h2, h7]; simp
    rw [h1, execLoop_exit k hexit]
    refine ⟨s', rfl, hsp, hstack s' h5 hsp ?_⟩
    rw [h4, lifo_push]; simp

/-- C3 with a two-slot stack and the three PUSHes 10, 20, 30. -/
theorem push_overflow_witness :
    (∃ s', runFresh (fun _ => 0) 4 0 2 (encOps (([10, 20] ++ [30]).map .push))
        = .returned (-2) (some s') ∧ s'.sp = 2 ∧ s'.stack = [10, 20] ∧ s'.ip = 27) ∧
    (∃ s', runFresh (fun _ => 0) 4 0 2 (encOps ([10, 20].map .push))
        = .returned 0 (some s') ∧ s'.sp = 2 ∧ s'.stack = [10, 20]) :=
  push_overflow (fun _ => 0) 4 0 [10, 20] 30 (by decide) (by decide) (by decide)

/-! ## Arithmetic on two pushed words -/

/-- C1: on a fresh VM with `stack_size ≥ 2` the 20-byte program
`PUSH a; PUSH b; ADD; END` returns 0 with `sp = 1` and
`stack[sp - 1] = (a + b) mod 2^64`, for every fuel that covers its four
iterations.  (`le64` keeps the low 64 bits of its argument, so the statement
needs no bound on `a` and `b`; for 64-bit words the encoding is exact.) -/
theorem push_push_add_end (oob : Nat → Nat) (fuel mem_size stack_size a b : Nat)
    (hs : 2 ≤ stack_size) (hss : stack_size < 2 ^ 32) (hf : 4 ≤ fuel) :
    (encPush a ++ encPush b ++ [OP_ADD, OP_END]).length = 20 ∧
    ∃ s', runFresh oob fuel mem_size stack_size (encPush a ++ encPush b ++ [OP_ADD, OP_END])
        = .returned 0 (some s') ∧ s'.sp = 1 ∧
      s'.stack[s'.sp - 1]? = some ((a + b) % 2 ^ 64) := by
  obtain ⟨k, rfl⟩ : ∃ k, fuel = k + 4 := ⟨fuel - 4, by omega⟩
  obtain ⟨m, rfl⟩ : ∃ m, stack_size = m + 2 := ⟨stack_size - 2, by omega⟩
  refine ⟨rfl, ?_⟩
  rw [runFresh_eq]
  have l0 : (encPush a ++ encPush b ++ [OP_ADD, OP_END]).length = 20 := rfl
  generalize hp : encPush a ++ encPush b ++ [OP_ADD, OP_END] = prog at l0 ⊢
  have d0 : prog.drop 0 = encPush a ++ (encPush b ++ [OP_ADD, OP_END]) := by
    rw [← hp]; simp
  have d9 : prog.drop 9 = encPush b ++ [OP_ADD, OP_END] := by rw [← hp]; rfl
  have d18 : prog.drop 18 = OP_ADD :: [OP_END] := by rw [← hp]; rfl
  have d19 : prog.drop 19 = OP_END :: [] := by rw [← hp]; rfl
  rw [execLoop_push (k + 3) (v := a) (r := encPush b ++ [OP_ADD, OP_END])
    (by simpa [loaded] using d0) (by simp [loaded]) (by simp [loaded, l0])
    (by simp [loaded]) (by simpa [loaded] using hss)]
  rw [execLoop_push (k + 2) (v := b) (r := [OP_ADD, OP_END])
    (by simpa [loaded] using d9) (by simp [loaded]) (by simp [loaded, l0])
    (by simp [loaded]) (by simpa [loaded] using hss)]
  rw [execLoop_add (k + 1) (r := [OP_END])
    (by simpa [loaded] using d18) (by simp [loaded]) (by simp [loaded, l0])
    (by simp [loaded])]
  rw [execLoop_end k (r := [])
    (by simpa [loaded] using d19) (by simp [loaded]) (by simp [loaded, l0])]
  refine ⟨_, rfl, by simp [loaded], ?_⟩
  simp [loaded, List.replicate_succ]

/-- C1 at `PUSH 5; PUSH 3; ADD; END` on a two-slot stack: top of stack is 8. -/
theorem push_push_add_end_witness :
    (2 ≤ 2 ∧ 2 < 2 ^ 32 ∧ 4 ≤ 4) ∧
    ∃ s', runFresh (fun _ => 0) 4 16 2 (encPush 5 ++ encPush 3 ++ [OP_ADD, OP_END])
        = .returned 0 (some s') ∧ s'.sp = 1 ∧ s'.stack[s'.sp - 1]? = some 8 :=
  ⟨by decide,
   (push_push_add_end (fun _ => 0) 4 16 2 5 3 (by decide) (by decide) (by decide)).2⟩

/-! ## Stack pointer bounds -/

theorem step_sp_le (oob : Nat → Nat) (bc : List Nat) (s : OBPLState)
    (hsp : s.sp ≤ s.stack_size) :
    (step oob bc s).state.sp ≤ (step oob bc s).state.stack_size ∧
      (step oob bc s).state.stack_size = s.stack_size := by
  have hmod : (s.sp + 1) % 2 ^ 32 ≤ s.sp + 1 := Nat.mod_le _ _
  unfold step
  simp only
  split_ifs <;> simp only [StepResult.state, and_true] <;> omega

theorem execLoop_sp_le (oob : Nat → Nat) (bc : List Nat) :
    ∀ (fuel : Nat) (s : OBPLState), s.sp ≤ s.stack_size →
      (execLoop oob bc fuel s).state.sp ≤ (execLoop oob bc fuel s).state.stack_size ∧
        (execLoop oob bc fuel s).state.stack_size = s.stack_size := by
  intro fuel
  induction fuel with
  | zero => intro s hsp; exact ⟨hsp, rfl⟩
  | succ n ih =>
    intro s hsp
    have hstep := step_sp_le oob bc s hsp
    unfold execLoop
    split_ifs with hlt
    · cases hs : step oob bc s with
      | next s' =>
        rw [hs] at hstep
        simp only [StepResult.state] at hstep
        have := ih s' hstep.1
        exact ⟨this.1, this.2.trans hstep.2⟩
      | ret code s' =>
        rw [hs] at hstep
        exact hstep
    · exact ⟨hsp, rfl⟩

/-! ## Termination when `ip` cannot wrap -/

theorem step_ip_lt (oob : Nat → Nat) (bc : List Nat) (s : OBPLState)
    (hlt : s.ip < s.bytecode_size) (hsz : s.bytecode_size + 8 < 2 ^ 32) :
    s.ip < (step oob bc s).state.ip ∧ (step oob bc s).state.ip ≤ s.ip + 9 ∧
      (step oob bc s).state.bytecode_size = s.bytecode_size := by
  have e1 : (s.ip + 1) % 2 ^ 32 = s.ip + 1 := Nat.mod_eq_of_lt (by omega)
  have e2 : (s.ip + 1 + 8) % 2 ^ 32 = s.ip + 9 := Nat.mod_eq_of_lt (by omega)
  unfold step
  simp only [e1, e2]
  split_ifs <;> simp only [StepResult.state, and_true] <;> omega

theorem execLoop_terminates (oob : Nat → Nat) (bc : List Nat) :
    ∀ (fuel : Nat) (s : OBPLState), s.bytecode_size + 8 < 2 ^ 32 →
      s.bytecode_size - s.ip < fuel →
      ∃ code s', execLoop oob bc fuel s = .done code s' := by
  intro fuel
  induction fuel with
  | zero => intro s _ h; omega
  | succ n ih =>
    intro s hsz hf
    unfold execLoop
    split_ifs with hlt
    · have hstep := step_ip_lt oob bc s hlt hsz
      cases hs : step oob bc s with
      | next s' =>
        rw [hs] at hstep
        simp only [StepResult.state] at hstep
        exact ih s' (by omega) (by omega)
      | ret code s' => exact ⟨code, s', rfl⟩
    · exact ⟨0, s, rfl⟩

/-! ## Runs that reach a given loop head -/

theorem execLoop_iterate (oob : Nat → Nat) (bc : List Nat) (fuel : Nat) :
    ∀ (n : Nat) (s s' : OBPLState), iterate oob bc n s = some s' →
      execLoop oob bc (n + fuel) s = execLoop oob bc fuel s' := by
  intro n
  induction n with
  | zero =>
    intro s s' h
    simp only [iterate, Option.some.injEq] at h
    simp [h]
  | succ k ih =>
    intro s s' h
    unfold iterate at h
    split_ifs at h with hlt
    cases hs : step oob bc s with
    | next s1 =>
      rw [hs] at h
      have e : k + 1 + fuel = (k + fuel) + 1 := by omega
      rw [e, execLoop_next _ hlt hs]
      exact ih s1 s' h
    | ret code s1 =>
      rw [hs] at h
      exact Option.noConfusion h

theorem iterate_sp_le (oob : Nat → Nat) (bc : List Nat) :
    ∀ (n : Nat) (s s' : OBPLState), iterate oob bc n s = some s' →
      s.sp ≤ s.stack_size → s'.sp ≤ s'.stack_size ∧ s'.stack_size = s.stack_size := by
  intro n
  induction n with
  | zero =>
    intro s s' h hsp
    simp only [iterate, Option.some.injEq] at h
    subst h
    exact ⟨hsp, rfl⟩
  | succ k ih =>
    intro s s' h hsp
    unfold iterate at h
    split_ifs at h with hlt
    have hstep := step_sp_le oob bc s hsp
    cases hs : step oob bc s with
    | next s1 =>
      rw [hs] at h hstep
      simp only [StepResult.state] at hstep
      have := ih s1 s' h hstep.1
      exact ⟨this.1, this.2.trans hstep.2⟩
    | ret code s1 =>
      rw [hs] at h
      exact Option.noConfusion h

/-- C4: started with `sp ≤ stack_size`, `obpl_execute` keeps `sp ≤ stack_size`
(`sp` is unsigned, so `0 ≤ sp` always) in the state it returns with, whatever
the return code, and in every state the loop passes through; it does return
whenever `bytecode_size + 8 < 2^32`.  Wherever in a run the loop fetches POP
with `sp = 0`, or ADD with `sp < 2`, the call returns -3 and leaves `sp`, the
stack and everything but `ip` as they were at the fetch. -/
theorem sp_within_stack (oob : Nat → Nat) (s : OBPLState) (hsp : s.sp ≤ s.stack_size) :
    (∀ fuel, ∃ s', (obpl_execute oob fuel (some s)).vmAfter = some s' ∧
        s'.sp ≤ s'.stack_size ∧ s'.stack_size = s.stack_size) ∧
    (s.bytecode_size + 8 < 2 ^ 32 → ∀ fuel, s.bytecode_size - s.ip < fuel →
        ∃ code s', obpl_execute oob fuel (some s) = .returned code (some s')) ∧
    (∀ bc n fuel s', s.bytecode = some bc → iterate oob bc n s = some s' →
        s'.ip < s'.bytecode_size → readByte oob bc s'.ip = OP_POP → s'.sp = 0 →
        obpl_execute oob (n + (fuel + 1)) (some s)
          = .returned (-3) (some { s' with ip := (s'.ip + 1) % 2 ^ 32 })) ∧
    (∀ bc n fuel s', s.bytecode = some bc → iterate oob bc n s = some s' →
        s'.ip < s'.bytecode_size → readByte oob bc s'.ip = OP_ADD → s'.sp < 2 →
        obpl_execute oob (n + (fuel + 1)) (some s)
          = .returned (-3) (some { s' with ip := (s'.ip + 1) % 2 ^ 32 })) := by
  refine ⟨?_, ?_, ?_, ?_⟩
  · intro fuel
    cases hbc : s.bytecode with
    | none => exact ⟨s, by simp [obpl_execute, hbc, CallResult.vmAfter], hsp, rfl⟩
    | some bc =>
      have h := execLoop_sp_le oob bc fuel s hsp
      rw [obpl_execute_some hbc]
      cases hr : execLoop oob bc fuel s with
      | done code s' => rw [hr] at h; exact ⟨s', rfl, h⟩
      | timeout s' => rw [hr] at h; exact ⟨s', rfl, h⟩
  · intro hsz fuel hf
    cases hbc : s.bytecode with
    | none => exact ⟨-1, s, by simp [obpl_execute, hbc]⟩
    | some bc =>
      obtain ⟨code, s', h⟩ := execLoop_terminates oob bc fuel s hsz hf
      exact ⟨code, s', by rw [obpl_execute_some hbc, h]; rfl⟩
  · intro bc n fuel s' hbc hit hlt hop h0
    rw [obpl_execute_some hbc, execLoop_iterate oob bc (fuel + 1) n s s' hit]
    have hs : step oob bc s' = .ret (-3) { s' with ip := (s'.ip + 1) % 2 ^ 32 } := by
      simp [step, hop, h0, OP_POP, OP_PUSH]
    rw [execLoop_ret fuel hlt hs]; rfl
  · intro bc n fuel s' hbc hit hlt hop h2
    rw [obpl_execute_some hbc, execLoop_iterate oob bc (fuel + 1) n s s' hit]
    have hs : step oob bc s' = .ret (-3) { s' with ip := (s'.ip + 1) % 2 ^ 32 } := by
      simp [step, hop, h2, OP_ADD, OP_POP, OP_PUSH]
    rw [execLoop_ret fuel hlt hs]; rfl

/-- C4 at `PUSH 9; ADD`: the ADD finds one operand and returns -3 with `sp = 1`
and the stack still holding 9. -/
theorem sp_within_stack_witness :
    obpl_execute (fun _ => 0) 2 (some (loaded 0 1 (encPush 9 ++ [OP_ADD])))
      = .returned (-3) (some { loaded 0 1 (encPush 9 ++ [OP_ADD]) with
          ip := 10, sp := 1, stack := [9] }) :=
  (sp_within_stack (fun _ => 0) (loaded 0 1 (encPush 9 ++ [OP_ADD])) (by decide)).2.2.2
    (encPush 9 ++ [OP_ADD]) 1 0
    { loaded 0 1 (encPush 9 ++ [OP_ADD]) with ip := 9, sp := 1, stack := [9] }
    rfl (by decide) (by decide) (by decide) (by decide)

/-! ## A PUSH whose immediate is cut short -/

/-- C5 (the code at the failing input): the one-byte program `PUSH` on a fresh
one-slot VM returns 0, not a fault; `ip` ends at 9 although `bytecode_size` is
1, and the word pushed is assembled from the eight bytes found at offsets
1..8, all of them outside the buffer. -/
theorem truncated_push_overruns (oob : Nat → Nat) (fuel mem_size : Nat) :
    runFresh oob (fuel + 2) mem_size 1 [OP_PUSH]
      = .returned 0 (some { loaded mem_size 1 [OP_PUSH] with
          ip := 9, sp := 1,
          stack := [oob 1 % 256 + 256 * (oob 2 % 256 + 256 * (oob 3 % 256
            + 256 * (oob 4 % 256 + 256 * (oob 5 % 256 + 256 * (oob 6 % 256
            + 256 * (oob 7 % 256 + 256 * (oob 8 % 256)))))))] }) := by
  rw [runFresh_eq]
  simp [execLoop, step, readByte, readU64, loaded, toCall, OP_PUSH]

/-! ## Normal termination -/

/-- C6: with bytecode loaded, (a) wherever in a run the loop fetches END (17)
the call returns 0 at once, the state being the one at the fetch with only `ip`
advanced past the END byte; (b) wherever in a run the loop head is reached with
`ip ≥ bytecode_size` the call returns 0 with the state unchanged. -/
theorem execute_returns_success (oob : Nat → Nat) (s : OBPLState) (bc : List Nat)
    (hbc : s.bytecode = some bc) (n fuel : Nat) (s' : OBPLState)
    (hit : iterate oob bc n s = some s') :
    (s'.ip < s'.bytecode_size → readByte oob bc s'.ip = OP_END →
        obpl_execute oob (n + (fuel + 1)) (some s)
          = .returned 0 (some { s' with ip := (s'.ip + 1) % 2 ^ 32 })) ∧
    (¬ s'.ip < s'.bytecode_size →
        obpl_execute oob (n + (fuel + 1)) (some s) = .returned 0 (some s')) := by
  rw [obpl_execute_some hbc, execLoop_iterate oob bc (fuel + 1) n s s' hit]
  constructor
  · intro hlt hop
    have hs : step oob bc s' = .ret 0 { s' with ip := (s'.ip + 1) % 2 ^ 32 } := by
      simp [step, hop, OP_END, OP_ADD, OP_POP, OP_PUSH]
    rw [execLoop_ret fuel hlt hs]; rfl
  · intro hge
    rw [execLoop_exit fuel hge]; rfl

/-- C6 at `PUSH 4; END; POP; POP`: the END after one iteration returns 0 with
the pushed 4 still on the stack, and the two POPs behind it do not run. -/
theorem execute_returns_success_witness :
    obpl_execute (fun _ => 0) 2 (some (loaded 0 1 (encPush 4 ++ [OP_END, OP_POP, OP_POP])))
      = .returned 0 (some { loaded 0 1 (encPush 4 ++ [OP_END, OP_POP, OP_POP]) with
          ip := 10, sp := 1, stack := [4] }) :=
  (execute_returns_success (fun _ => 0) (loaded 0 1 (encPush 4 ++ [OP_END, OP_POP, OP_POP]))
    (encPush 4 ++ [OP_END, OP_POP, OP_POP]) rfl 1 0
    { loaded 0 1 (encPush 4 ++ [OP_END, OP_POP, OP_POP]) with ip := 9, sp := 1, stack := [4] }
    (by decide)).1 (by decide) (by decide)

/-! ## Loading bytecode -/

/-- C7: whenever `obpl_load_bytecode` of the bytes `B` returns 0, the VM was
initialised and afterwards holds `B` as its bytecode with
`bytecode_size = |B|` and `ip = 0`, while `memory` and `mem_size` (and the
stack) are what they were before the call. -/
theorem load_bytecode_frame (allocOk : Bool) (B : List Nat) (vm : Option OBPLState)
    (h : (obpl_load_bytecode allocOk B B.length vm).1 = 0) :
    ∃ s s', vm = some s ∧ (obpl_load_bytecode allocOk B B.length vm).2 = some s' ∧
      s'.bytecode = some B ∧ s'.bytecode_size = B.length ∧ s'.ip = 0 ∧
      s'.memory = s.memory ∧ s'.mem_size = s.mem_size ∧
      s'.stack = s.stack ∧ s'.sp = s.sp ∧ s'.stack_size = s.stack_size := by
  cases vm with
  | none => simp [obpl_load_bytecode] at h
  | some s =>
    cases allocOk with
    | false => simp [obpl_load_bytecode] at h
    | true =>
      refine ⟨s, _, rfl, rfl, ?_⟩
      simp

/-- C7 on a VM in mid-program: reloading puts `ip` back to 0 and keeps the
memory bytes. -/
theorem load_bytecode_frame_witness :
    ∃ s s', some { loaded 2 1 [OP_POP, OP_END] with ip := 1, memory := [7, 9] } = some s ∧
      (obpl_load_bytecode true [OP_END] [OP_END].length
        (some { loaded 2 1 [OP_POP, OP_END] with ip := 1, memory := [7, 9] })).2 = some s' ∧
      s'.bytecode = some [OP_END] ∧ s'.bytecode_size = [OP_END].length ∧ s'.ip = 0 ∧
      s'.memory = s.memory ∧ s'.mem_size = s.mem_size ∧
      s'.stack = s.stack ∧ s'.sp = s.sp ∧ s'.stack_size = s.stack_size :=
  load_bytecode_frame true [OP_END]
    (some { loaded 2 1 [OP_POP, OP_END] with ip := 1, memory := [7, 9] }) (by decide)

/-- C8 (counterexample): a VM holding the program `END` whose reload fails to
allocate no longer holds that program. -/
theorem load_failure_drops_old_bytecode :
    ¬ ∃ s', (obpl_load_bytecode false [OP_POP] 1 (some (loaded 0 1 [OP_END]))).2 = some s' ∧
      s'.bytecode = (loaded 0 1 [OP_END]).bytecode := by
  rintro ⟨s', h, hb⟩
  simp only [obpl_load_bytecode, Bool.not_false, if_true, Option.some.injEq] at h
  subst h
  simp [loaded] at hb

/-- C8 (amended): on an initialised VM a load whose allocation fails returns -2
and leaves the VM without bytecode (the old buffer is released, every other
field keeps its value), so that a following `obpl_execute` returns -1 and
changes nothing; a load whose allocation succeeds returns 0 and replaces the
bytecode, `bytecode_size` and `ip` completely. -/
theorem load_bytecode_all_or_none (oob : Nat → Nat) (fuel : Nat) (s : OBPLState)
    (B : List Nat) :
    obpl_load_bytecode false B B.length (some s) = (-2, some { s with bytecode := none }) ∧
    obpl_execute oob fuel (obpl_load_bytecode false B B.length (some s)).2
      = .returned (-1) (some { s with bytecode := none }) ∧
    obpl_load_bytecode true B B.length (some s)
      = (0, some { s with bytecode := some B, bytecode_size := B.length, ip := 0 }) := by
  refine ⟨rfl, rfl, ?_⟩
  simp [obpl_load_bytecode]

/-! ## Opcodes without a `case` -/

/-- Running `PUSH a; PUSH b; x; END` where the `switch` has no `case` for the
byte `x`: both words are pushed, `x` is passed over, END returns 0. -/
theorem run_push_push_unhandled_end (oob : Nat → Nat) (fuel mem_size m a b x : Nat)
    (hm : m + 2 < 2 ^ 32)
    (h1 : x % 256 ≠ OP_PUSH) (h2 : x % 256 ≠ OP_POP) (h3 : x % 256 ≠ OP_ADD)
    (h17 : x % 256 ≠ OP_END) :
    runFresh oob (fuel + 4) mem_size (m + 2) (encPush a ++ encPush b ++ [x, OP_END])
      = .returned 0 (some { loaded mem_size (m + 2) (encPush a ++ encPush b ++ [x, OP_END]) with
          ip := 20, sp := 2, stack := a % 2 ^ 64 :: b % 2 ^ 64 :: List.replicate m 0 }) := by
  rw [runFresh_eq]
  have l0 : (encPush a ++ encPush b ++ [x, OP_END]).length = 20 := rfl
  generalize hp : encPush a ++ encPush b ++ [x, OP_END] = prog at l0 ⊢
  have d0 : prog.drop 0 = encPush a ++ (encPush b ++ [x, OP_END]) := by
    rw [← hp]; simp
  have d9 : prog.drop 9 = encPush b ++ [x, OP_END] := by rw [← hp]; rfl
  have d18 : prog.drop 18 = x :: [OP_END] := by rw [← hp]; rfl
  have d19 : prog.drop 19 = OP_END :: [] := by rw [← hp]; rfl
  rw [execLoop_push (fuel + 3) (v := a) (r := encPush b ++ [x, OP_END])
    (by simpa [loaded] using d0) (by simp [loaded]) (by simp [loaded, l0])
    (by simp [loaded]) (by simpa [loaded] using hm)]
  rw [execLoop_push (fuel + 2) (v := b) (r := [x, OP_END])
    (by simpa [loaded] using d9) (by simp [loaded]) (by simp [loaded, l0])
    (by simp [loaded]) (by simpa [loaded] using hm)]
  rw [execLoop_unhandled (fuel + 1) (x := x) (r := [OP_END])
    (by simpa [loaded] using d18) (by simp [loaded]) (by simp [loaded, l0]) h1 h2 h3 h17]
  rw [execLoop_end fuel (r := [])
    (by simpa [loaded] using d19) (by simp [loaded]) (by simp [loaded, l0])]
  simp [loaded, toCall, List.replicate_succ, l0]

/-- C9 (the code at the failing input): `PUSH 7; PUSH 0; DIV; END` on a fresh
two-slot VM returns 0, not a divide-by-zero error; the DIV byte is passed over
and the stack still holds 7 and 0 with `sp = 2`.  For every `a` and `b`, zero
or not, `PUSH a; PUSH b; DIV; END` returns 0 with both operands left on the
stack and no quotient computed. -/
theorem div_by_zero_returns_success (oob : Nat → Nat) (fuel mem_size a b : Nat) :
    runFresh oob (fuel + 4) mem_size 2 (encPush 7 ++ encPush 0 ++ [OP_DIV, OP_END])
      = .returned 0 (some { loaded mem_size 2 (encPush 7 ++ encPush 0 ++ [OP_DIV, OP_END]) with
          ip := 20, sp := 2, stack := [7, 0] }) ∧
    runFresh oob (fuel + 4) mem_size 2 (encPush a ++ encPush b ++ [OP_DIV, OP_END])
      = .returned 0 (some { loaded mem_size 2 (encPush a ++ encPush b ++ [OP_DIV, OP_END]) with
          ip := 20, sp := 2, stack := [a % 2 ^ 64, b % 2 ^ 64] }) :=
  ⟨run_push_push_unhandled_end oob fuel mem_size 0 7 0 OP_DIV (by decide) (by decide)
      (by decide) (by decide) (by decide),
   run_push_push_unhandled_end oob fuel mem_size 0 a b OP_DIV (by decide) (by decide)
      (by decide) (by decide) (by decide)⟩

/-- C10 (the code at the failing input): `PUSH 1; PUSH 2; EQ; END` on a fresh
two-slot VM returns 0 with `sp = 2` and top of stack 2, not `sp = 1` and top of
stack 0; the EQ byte is passed over. -/
theorem eq_leaves_operands (oob : Nat → Nat) (fuel mem_size : Nat) :
    runFresh oob (fuel + 4) mem_size 2 (encPush 1 ++ encPush 2 ++ [OP_EQ, OP_END])
      = .returned 0 (some { loaded mem_size 2 (encPush 1 ++ encPush 2 ++ [OP_EQ, OP_END]) with
          ip := 20, sp := 2, stack := [1, 2] }) :=
  run_push_push_unhandled_end oob fuel mem_size 0 1 2 OP_EQ (by decide) (by decide)
    (by decide) (by decide) (by decide)

/-- C11 (the code at the failing inputs): `JMP 100; END`, ten bytes long so
that the target 100 lies outside the bytecode, returns 0: the JMP byte and then
each of the eight bytes of its immediate are fetched as opcodes and passed
over, until END returns.  The one-byte program `RET` on a VM that has never
executed a CALL returns 0 as well. -/
theorem jmp_ret_return_success (oob : Nat → Nat) (fuel mem_size stack_size : Nat) :
    runFresh oob (fuel + 10) mem_size stack_size (OP_JMP :: le64 100 ++ [OP_END])
      = .returned 0 (some { loaded mem_size stack_size (OP_JMP :: le64 100 ++ [OP_END]) with
          ip := 10 }) ∧
    runFresh oob (fuel + 2) mem_size stack_size [OP_RET]
      = .returned 0 (some { loaded mem_size stack_size [OP_RET] with ip := 1 }) := by
  constructor
  · rw [runFresh_eq]
    simp [execLoop, step, readByte, loaded, toCall, le64, OP_JMP, OP_PUSH, OP_POP, OP_ADD,
      OP_END]
  · rw [runFresh_eq]
    simp [execLoop, step, readByte, loaded, toCall, OP_RET, OP_PUSH, OP_POP, OP_ADD, OP_END]

/-- C12 (counterexample): the program `0; 200; END`, whose first two bytes are
not opcodes at all, returns 0 with `ip = 3`; it does not stop at byte 0 and no
error code comes back. -/
theorem unknown_opcode_returns_success :
    runFresh (fun _ => 0) 3 0 0 [0, 200, OP_END]
      = .returned 0 (some { loaded 0 0 [0, 200, OP_END] with ip := 3 }) ∧
    ¬ ∃ code vm, code ≠ 0 ∧
        runFresh (fun _ => 0) 3 0 0 [0, 200, OP_END] = .returned code vm := by
  have h : runFresh (fun _ => 0) 3 0 0 [0, 200, OP_END]
      = .returned 0 (some { loaded 0 0 [0, 200, OP_END] with ip := 3 }) := by decide
  refine ⟨h, ?_⟩
  rintro ⟨code, vm, hne, hr⟩
  rw [h] at hr
  injection hr with hc _
  exact hne hc.symm

/-- C12 (amended): when the loop fetches a byte that is none of the seventeen
declared opcodes (0, or 18 to 255), that iteration only advances `ip` by one:
`sp`, the stack, the memory and the bytecode are untouched, nothing is
returned, and the call goes on exactly as it would from the next byte. -/
theorem undeclared_byte_skipped (oob : Nat → Nat) (fuel : Nat) (s : OBPLState)
    (bc : List Nat) (hbc : s.bytecode = some bc) (hlt : s.ip < s.bytecode_size)
    (hx : readByte oob bc s.ip = 0 ∨ OP_END < readByte oob bc s.ip) :
    step oob bc s = .next { s with ip := (s.ip + 1) % 2 ^ 32 } ∧
    obpl_execute oob (fuel + 1) (some s)
      = obpl_execute oob fuel (some { s with ip := (s.ip + 1) % 2 ^ 32 }) := by
  have hs : step oob bc s = .next { s with ip := (s.ip + 1) % 2 ^ 32 } := by
    simp only [OP_END] at hx
    have h1 : readByte oob bc s.ip ≠ OP_PUSH := by simp only [OP_PUSH]; omega
    have h2 : readByte oob bc s.ip ≠ OP_POP := by simp only [OP_POP]; omega
    have h3 : readByte oob bc s.ip ≠ OP_ADD := by simp only [OP_ADD]; omega
    have h17 : readByte oob bc s.ip ≠ OP_END := by simp only [OP_END]; omega
    simp only [step, if_neg h1, if_neg h2, if_neg h3, if_neg h17]
  refine ⟨hs, ?_⟩
  have hbc' : ({ s with ip := (s.ip + 1) % 2 ^ 32 } : OBPLState).bytecode = some bc := hbc
  rw [obpl_execute_some hbc, obpl_execute_some hbc', execLoop_next fuel hlt hs]

/-- C12 (amended) at the byte 200 in front of an END. -/
theorem undeclared_byte_skipped_witness :
    obpl_execute (fun _ => 0) 2 (some (loaded 0 0 [200, OP_END]))
      = obpl_execute (fun _ => 0) 1 (some { loaded 0 0 [200, OP_END] with ip := 1 }) :=
  (undeclared_byte_skipped (fun _ => 0) 1 (loaded 0 0 [200, OP_END]) [200, OP_END] rfl
    (by decide) (by decide)).2

/-! ## Termination -/

theorem step_ip_eq (oob : Nat → Nat) (bc : List Nat) (s : OBPLState)
    (hlt : s.ip < s.bytecode_size) (hsz : s.bytecode_size + 8 < 2 ^ 32) :
    (step oob bc s).state.ip
      = if readByte oob bc s.ip = OP_PUSH then s.ip + 9 else s.ip + 1 := by
  have e1 : (s.ip + 1) % 2 ^ 32 = s.ip + 1 := Nat.mod_eq_of_lt (by omega)
  have e2 : (s.ip + 1 + 8) % 2 ^ 32 = s.ip + 9 := Nat.mod_eq_of_lt (by omega)
  unfold step
  simp only [e1, e2]
  split_ifs <;> simp only [StepResult.state]

theorem iterate_ip_le (oob : Nat → Nat) (bc : List Nat) :
    ∀ (n : Nat) (s s' : OBPLState), s.bytecode_size + 8 < 2 ^ 32 →
      iterate oob bc n s = some s' →
      s.ip + n ≤ s'.ip ∧ s'.bytecode_size = s.bytecode_size := by
  intro n
  induction n with
  | zero =>
    intro s s' _ h
    simp only [iterate, Option.some.injEq] at h
    subst h
    exact ⟨Nat.le_refl _, rfl⟩
  | succ k ih =>
    intro s s' hsz h
    unfold iterate at h
    split_ifs at h with hlt
    have hstep := step_ip_lt oob bc s hlt hsz
    cases hs : step oob bc s with
    | next s1 =>
      rw [hs] at h hstep
      simp only [StepResult.state] at hstep
      have := ih s1 s' (by omega) h
      exact ⟨by omega, this.2.trans hstep.2.2⟩
    | ret code s1 =>
      rw [hs] at h
      exact Option.noConfusion h

/-- C13: with bytecode loaded and `bytecode_size + 8 < 2^32` (so that `ip + 9`
cannot wrap while `ip < bytecode_size`): every iteration the loop performs
moves `ip` up by exactly 9 when the fetched byte is PUSH and by exactly 1
otherwise; after `n` iterations `ip` has grown by at least `n`, so whenever an
`(n+1)`-th iteration starts, `n + 1 ≤ bytecode_size - ip`; and the call returns
for every fuel above `bytecode_size - ip`. -/
theorem execute_terminates (oob : Nat → Nat) (s : OBPLState) (bc : List Nat)
    (hbc : s.bytecode = some bc) (hsz : s.bytecode_size + 8 < 2 ^ 32) :
    (∀ n s', iterate oob bc n s = some s' → s'.ip < s'.bytecode_size →
        (step oob bc s').state.ip
          = if readByte oob bc s'.ip = OP_PUSH then s'.ip + 9 else s'.ip + 1) ∧
    (∀ n s', iterate oob bc n s = some s' →
        s.ip + n ≤ s'.ip ∧
        (s'.ip < s'.bytecode_size → n + 1 ≤ s.bytecode_size - s.ip)) ∧
    (∀ fuel, s.bytecode_size - s.ip < fuel →
        ∃ code s', obpl_execute oob fuel (some s) = .returned code (some s')) := by
  refine ⟨?_, ?_, ?_⟩
  · intro n s' hit hlt
    have h := iterate_ip_le oob bc n s s' hsz hit
    exact step_ip_eq oob bc s' hlt (by omega)
  · intro n s' hit
    have h := iterate_ip_le oob bc n s s' hsz hit
    exact ⟨h.1, fun hlt => by omega⟩
  · intro fuel hf
    obtain ⟨code, s', h⟩ := execLoop_terminates oob bc fuel s hsz hf
    exact ⟨code, s', by rw [obpl_execute_some hbc, h]; rfl⟩

/-- C13 at `PUSH 4; END` (ten bytes): eleven units of fuel are enough for the
call to return. -/
theorem execute_terminates_witness :
    ∃ code s', obpl_execute (fun _ => 0) 11 (some (loaded 0 1 (encPush 4 ++ [OP_END])))
      = .returned code (some s') :=
  (execute_terminates (fun _ => 0) (loaded 0 1 (encPush 4 ++ [OP_END]))
    (encPush 4 ++ [OP_END]) rfl (by decide)).2.2 11 (by decide)

end OBPL

namespace PEPx

/-! ## Two-bit chunks of a byte -/

theorem chunk_lt (x : Nat) : x &&& 0x03 < 4 :=
  Nat.lt_of_le_of_lt Nat.and_le_right (by decide)

set_option maxRecDepth 100000 in
theorem enc_low : ∀ p, p < 256 → ∀ c, c < 4 → (((p &&& 0xFC) ||| c) % 256) &&& 0x03 = c := by
  decide

set_option maxRecDepth 100000 in
theorem enc_high : ∀ p, p < 256 → ∀ c, c < 4 →
    (((p &&& 0xFC) ||| c) % 256) >>> 2 = p >>> 2 := by
  decide

set_option maxRecDepth 100000 in
theorem decode_chunks : ∀ b, b < 256 →
    (((((0 ||| (((b >>> 6) &&& 0x03) <<< 6)) % 256 ||| (((b >>> 4) &&& 0x03) <<< 4)) % 256
      ||| (((b >>> 2) &&& 0x03) <<< 2)) % 256) ||| (b &&& 0x03)) % 256 = b := by
  decide

/-! ## One pixel -/

theorem writeChannel_some {d : List Nat} {k p : Nat} (c : Nat) (h : d[k]? = some p) :
    writeChannel d k c = some (d.set k (((p &&& 0xFC) ||| c) % 256)) := by
  simp only [writeChannel, h]

theorem storePixel_spec (d : List Nat) (off b : Nat) (hoff : off + 4 ≤ d.length)
    (hL : d.length < 2 ^ 32) (hb : ∀ (j : Nat) (p : Nat), d[j]? = some p → p < 256)
    (hbyte : b < 256) :
    ∃ d1 : List Nat, storePixel d off b = some d1 ∧ d1.length = d.length ∧
      (∀ j : Nat, j < off ∨ off + 4 ≤ j → d1[j]? = d[j]?) ∧
      (∀ (j : Nat) (q : Nat), d1[j]? = some q →
        ∃ p, d[j]? = some p ∧ q >>> 2 = p >>> 2 ∧ q < 256) ∧
      readPixel d1 off = some b := by
  have m1 : (off + 1) % 2 ^ 32 = off + 1 := Nat.mod_eq_of_lt (by omega)
  have m2 : (off + 2) % 2 ^ 32 = off + 2 := Nat.mod_eq_of_lt (by omega)
  have m3 : (off + 3) % 2 ^ 32 = off + 3 := Nat.mod_eq_of_lt (by omega)
  have h0 : d[off]? = some d[off] := List.getElem?_eq_getElem (by omega)
  have h1 : d[off + 1]? = some d[off + 1] := List.getElem?_eq_getElem (by omega)
  have h2 : d[off + 2]? = some d[off + 2] := List.getElem?_eq_getElem (by omega)
  have h3 : d[off + 3]? = some d[off + 3] := List.getElem?_eq_getElem (by omega)
  generalize d[off] = p0 at h0
  generalize d[off + 1] = p1 at h1
  generalize d[off + 2] = p2 at h2
  generalize d[off + 3] = p3 at h3
  have b0 := hb _ _ h0
  have b1 := hb _ _ h1
  have b2 := hb _ _ h2
  have b3 := hb _ _ h3
  have hs : storePixel d off b = some
      ((((d.set off (((p0 &&& 0xFC) ||| ((b >>> 6) &&& 0x03)) % 256)).set (off + 1)
        (((p1 &&& 0xFC) ||| ((b >>> 4) &&& 0x03)) % 256)).set (off + 2)
        (((p2 &&& 0xFC) ||| ((b >>> 2) &&& 0x03)) % 256)).set (off + 3)
        (((p3 &&& 0xFC) ||| (b &&& 0x03)) % 256)) := by
    have h1' : (d.set off (((p0 &&& 0xFC) ||| ((b >>> 6) &&& 0x03)) % 256))[off + 1]?
        = some p1 := by
      rw [List.getElem?_set_ne (by omega)]; exact h1
    have h2' : ((d.set off (((p0 &&& 0xFC) ||| ((b >>> 6) &&& 0x03)) % 256)).set (off + 1)
        (((p1 &&& 0xFC) ||| ((b >>> 4) &&& 0x03)) % 256))[off + 2]? = some p2 := by
      rw [List.getElem?_set_ne (by omega), List.getElem?_set_ne (by omega)]; exact h2
    have h3' : (((d.set off (((p0 &&& 0xFC) ||| ((b >>> 6) &&& 0x03)) % 256)).set (off + 1)
        (((p1 &&& 0xFC) ||| ((b >>> 4) &&& 0x03)) % 256)).set (off + 2)
        (((p2 &&& 0xFC) ||| ((b >>> 2) &&& 0x03)) % 256))[off + 3]? = some p3 := by
      rw [List.getElem?_set_ne (by omega), List.getElem?_set_ne (by omega),
        List.getElem?_set_ne (by omega)]; exact h3
    simp only [storePixel, m1, m2, m3, writeChannel_some _ h0, writeChannel_some _ h1',
      writeChannel_some _ h2', writeChannel_some _ h3']
  refine ⟨_, hs, by simp, ?_, ?_, ?_⟩
  · intro j hj
    rw [List.getElem?_set_ne (by omega), List.getElem?_set_ne (by omega),
      List.getElem?_set_ne (by omega), List.getElem?_set_ne (by omega)]
  · intro j q hq
    by_cases e3 : off + 3 = j
    · subst e3
      rw [List.getElem?_set_self (by simp; omega)] at hq
      injection hq with hq
      subst hq
      exact ⟨p3, h3, enc_high p3 b3 _ (chunk_lt b), Nat.mod_lt _ (by decide)⟩
    rw [List.getElem?_set_ne e3] at hq
    by_cases e2 : off + 2 = j
    · subst e2
      rw [List.getElem?_set_self (by simp; omega)] at hq
      injection hq with hq
      subst hq
      exact ⟨p2, h2, enc_high p2 b2 _ (chunk_lt _), Nat.mod_lt _ (by decide)⟩
    rw [List.getElem?_set_ne e2] at hq
    by_cases e1 : off + 1 = j
    · subst e1
      rw [List.getElem?_set_self (by simp; omega)] at hq
      injection hq with hq
      subst hq
      exact ⟨p1, h1, enc_high p1 b1 _ (chunk_lt _), Nat.mod_lt _ (by decide)⟩
    rw [List.getElem?_set_ne e1] at hq
    by_cases e0 : off = j
    · subst e0
      rw [List.getElem?_set_self (by omega)] at hq
      injection hq with hq
      subst hq
      exact ⟨p0, h0, enc_high p0 b0 _ (chunk_lt _), Nat.mod_lt _ (by decide)⟩
    rw [List.getElem?_set_ne e0] at hq
    exact ⟨q, hq, rfl, hb j q hq⟩
  · have g3 : ((((d.set off (((p0 &&& 0xFC) ||| ((b >>> 6) &&& 0x03)) % 256)).set (off + 1)
        (((p1 &&& 0xFC) ||| ((b >>> 4) &&& 0x03)) % 256)).set (off + 2)
        (((p2 &&& 0xFC) ||| ((b >>> 2) &&& 0x03)) % 256)).set (off + 3)
        (((p3 &&& 0xFC) ||| (b &&& 0x03)) % 256))[off + 3]?
        = some (((p3 &&& 0xFC) ||| (b &&& 0x03)) % 256) :=
      List.getElem?_set_self (by simp; omega)
    have g2 : ((((d.set off (((p0 &&& 0xFC) ||| ((b >>> 6) &&& 0x03)) % 256)).set (off + 1)
        (((p1 &&& 0xFC) ||| ((b >>> 4) &&& 0x03)) % 256)).set (off + 2)
        (((p2 &&& 0xFC) ||| ((b >>> 2) &&& 0x03)) % 256)).set (off + 3)
        (((p3 &&& 0xFC) ||| (b &&& 0x03)) % 256))[off + 2]?
        = some (((p2 &&& 0xFC) ||| ((b >>> 2) &&& 0x03)) % 256) := by
      rw [List.getElem?_set_ne (by omega), List.getElem?_set_self (by simp; omega)]
    have g1 : ((((d.set off (((p0 &&& 0xFC) ||| ((b >>> 6) &&& 0x03)) % 256)).set (off + 1)
        (((p1 &&& 0xFC) ||| ((b >>> 4) &&& 0x03)) % 256)).set (off + 2)
        (((p2 &&& 0xFC) ||| ((b >>> 2) &&& 0x03)) % 256)).set (off + 3)
        (((p3 &&& 0xFC) ||| (b &&& 0x03)) % 256))[off + 1]?
        = some (((p1 &&& 0xFC) ||| ((b >>> 4) &&& 0x03)) % 256) := by
      rw [List.getElem?_set_ne (by omega), List.getElem?_set_ne (by omega),
        List.getElem?_set_self (by simp; omega)]
    have g0 : ((((d.set off (((p0 &&& 0xFC) ||| ((b >>> 6) &&& 0x03)) % 256)).set (off + 1)
        (((p1 &&& 0xFC) ||| ((b >>> 4) &&& 0x03)) % 256)).set (off + 2)
        (((p2 &&& 0xFC) ||| ((b >>> 2) &&& 0x03)) % 256)).set (off + 3)
        (((p3 &&& 0xFC) ||| (b &&& 0x03)) % 256))[off]?
        = some (((p0 &&& 0xFC) ||| ((b >>> 6) &&& 0x03)) % 256) := by
      rw [List.getElem?_set_ne (by omega), List.getElem?_set_ne (by omega),
        List.getElem?_set_ne (by omega), List.getElem?_set_self (by omega)]
    simp only [readPixel, m1, m2, m3, g0, g1, g2, g3]
    rw [enc_low p0 b0 _ (chunk_lt _), enc_low p1 b1 _ (chunk_lt _),
      enc_low p2 b2 _ (chunk_lt _), enc_low p3 b3 _ (chunk_lt b), decode_chunks b hbyte]

theorem readPixel_congr (d d' : List Nat) (off : Nat) (hoff : off + 3 < 2 ^ 32)
    (h : ∀ j : Nat, off ≤ j → j < off + 4 → d'[j]? = d[j]?) :
    readPixel d' off = readPixel d off := by
  have m1 : (off + 1) % 2 ^ 32 = off + 1 := Nat.mod_eq_of_lt (by omega)
  have m2 : (off + 2) % 2 ^ 32 = off + 2 := Nat.mod_eq_of_lt (by omega)
  have m3 : (off + 3) % 2 ^ 32 = off + 3 := Nat.mod_eq_of_lt (by omega)
  simp only [readPixel, m1, m2, m3, h off (by omega) (by omega),
    h (off + 1) (by omega) (by omega), h (off + 2) (by omega) (by omega),
    h (off + 3) (by omega) (by omega)]

/-! ## The store loop followed by the retrieve loop -/

theorem pixelOffset_eq (sp i L : Nat) (h : 4 * (sp + i) + 4 ≤ L) (hL : L < 2 ^ 32) :
    pixelOffset sp i = 4 * (sp + i) := by
  unfold pixelOffset
  rw [Nat.mod_eq_of_lt (by omega), Nat.mod_eq_of_lt (by omega)]
  omega

theorem storeLoop_spec (data : List Nat) (sp : Nat)
    (hdb : ∀ (k : Nat) (b : Nat), data[k]? = some b → b < 256) :
    ∀ (n i : Nat) (d : List Nat), i + n = data.length → 4 * (sp + i + n) ≤ d.length →
      d.length < 2 ^ 32 → (∀ (j : Nat) (p : Nat), d[j]? = some p → p < 256) →
      ∃ d' : List Nat, storeLoop data sp n i d = some d' ∧ d'.length = d.length ∧
        (∀ j : Nat, j < 4 * (sp + i) ∨ 4 * (sp + i + n) ≤ j → d'[j]? = d[j]?) ∧
        (∀ (j : Nat) (q : Nat), d'[j]? = some q →
          ∃ p, d[j]? = some p ∧ q >>> 2 = p >>> 2 ∧ q < 256) ∧
        retrieveLoop d' sp n i = some (data.drop i) := by
  intro n
  induction n with
  | zero =>
    intro i d hi _ _ hb
    refine ⟨d, rfl, rfl, fun _ _ => rfl, fun j q hq => ⟨q, hq, rfl, hb j q hq⟩, ?_⟩
    rw [List.drop_eq_nil_of_le (by omega)]
    rfl
  | succ n ih =>
    intro i d hi hlen hL hb
    have hil : i < data.length := by omega
    have hbi : data[i]? = some data[i] := List.getElem?_eq_getElem hil
    have hlt : data[i] < 256 := hdb i _ hbi
    have hoff : pixelOffset sp i = 4 * (sp + i) :=
      pixelOffset_eq sp i d.length (by omega) hL
    obtain ⟨d1, hs1, hl1, hf1, hu1, hr1⟩ :=
      storePixel_spec d (4 * (sp + i)) data[i] (by omega) hL hb hlt
    obtain ⟨d', hs, hl, hf, hu, hr⟩ :=
      ih (i + 1) d1 (by omega) (by omega) (by omega)
        (fun j q hq => (hu1 j q hq).choose_spec.2.2)
    refine ⟨d', ?_, by omega, ?_, ?_, ?_⟩
    · simp only [storeLoop, hbi, Nat.mod_eq_of_lt hlt, hoff, hs1, hs]
    · intro j hj
      rw [hf j (by omega), hf1 j (by omega)]
    · intro j q hq
      obtain ⟨p1, hp1, e1, hq256⟩ := hu j q hq
      obtain ⟨p, hp, e, _⟩ := hu1 j p1 hp1
      exact ⟨p, hp, e1.trans e, hq256⟩
    · have hrd : readPixel d' (4 * (sp + i)) = some data[i] := by
        rw [readPixel_congr d1 d' (4 * (sp + i)) (by omega)
          (fun j _ h2 => hf j (by omega))]
        exact hr1
      simp only [retrieveLoop, hoff, hrd, hr]
      rw [List.drop_eq_getElem_cons hil]

/-! ## Round trip through a plane -/

theorem planeOK_of_ctxOK {ctx : PEPxContext} {plane : PEPxPlane} {k : Nat}
    (hok : ctxOK ctx = true) (hp : ctx.planes[k]? = some plane) :
    k < ctx.planes.length ∧ plane.data.length = plane.width * plane.height * 4 ∧
      plane.data.length < 2 ^ 32 ∧ ∀ (j : Nat) (p : Nat), plane.data[j]? = some p → p < 256 := by
  simp only [ctxOK, Bool.and_eq_true, decide_eq_true_eq, List.all_eq_true] at hok
  obtain ⟨hk, hget⟩ := List.getElem?_eq_some_iff.mp hp
  have hmem : plane ∈ ctx.planes := by rw [← hget]; exact List.getElem_mem _
  have hpl := hok.2 plane hmem
  simp only [planeOK, Bool.and_eq_true, decide_eq_true_eq, List.all_eq_true] at hpl
  refine ⟨hk, hpl.1.1, hpl.1.2, ?_⟩
  intro j p hj
  obtain ⟨hj', hjv⟩ := List.getElem?_eq_some_iff.mp hj
  exact hpl.2 p (by rw [← hjv]; exact List.getElem_mem _)

/-- Round trip where no 32-bit product wraps: in a context with `plane_count`
planes whose buffers hold `width * height * 4` bytes (a 32-bit size), for
`plane_idx < plane_count`, any plane contents and any bytes `data` with
`start_y * width + start_x + |data| ≤ width * height` as natural numbers,
`pepx_store_data` returns 0, and `pepx_retrieve_data` with the same arguments on
the resulting context returns 0 and exactly `data`.  The store keeps the
plane's dimensions and size, every channel byte outside the `|data|` addressed
pixels, the upper six bits of every channel byte, and every other plane. -/
theorem store_retrieve_roundtrip (ctx : PEPxContext) (plane : PEPxPlane)
    (plane_idx start_x start_y : Nat) (data : List Nat)
    (hok : ctxOK ctx = true) (hidx : plane_idx < ctx.plane_count)
    (hp : ctx.planes[plane_idx]? = some plane)
    (hdb : ∀ b ∈ data, b < 256)
    (hrange : start_y * plane.width + start_x + data.length ≤ plane.width * plane.height) :
    ∃ (ctx' : PEPxContext) (plane' : PEPxPlane),
      pepx_store_data (some ctx) plane_idx start_x start_y data data.length
        = some (0, some ctx') ∧
      pepx_retrieve_data (some ctx') plane_idx start_x start_y data.length
        = some (0, data) ∧
      ctx'.planes[plane_idx]? = some plane' ∧ ctx'.plane_count = ctx.plane_count ∧
      plane'.width = plane.width ∧ plane'.height = plane.height ∧
      plane'.data.length = plane.data.length ∧
      (∀ j : Nat, j < 4 * (start_y * plane.width + start_x) ∨
          4 * (start_y * plane.width + start_x + data.length) ≤ j →
        plane'.data[j]? = plane.data[j]?) ∧
      (∀ (j : Nat) (q : Nat), plane'.data[j]? = some q →
        ∃ p, plane.data[j]? = some p ∧ q >>> 2 = p >>> 2) ∧
      (∀ k : Nat, k ≠ plane_idx → ctx'.planes[k]? = ctx.planes[k]?) := by
  obtain ⟨hk, hlen, hL, hb⟩ := planeOK_of_ctxOK hok hp
  have hdb' : ∀ (k : Nat) (b : Nat), data[k]? = some b → b < 256 := by
    intro k b hkb
    obtain ⟨hk', hv⟩ := List.getElem?_eq_some_iff.mp hkb
    exact hdb b (by rw [← hv]; exact List.getElem_mem _)
  have hwh : plane.width * plane.height < 2 ^ 32 := by omega
  have e1 : plane.width * plane.height % 2 ^ 32 = plane.width * plane.height :=
    Nat.mod_eq_of_lt hwh
  have e2 : (start_y * plane.width % 2 ^ 32 + start_x) % 2 ^ 32
      = start_y * plane.width + start_x := by
    rw [Nat.mod_eq_of_lt (a := start_y * plane.width) (by omega), Nat.mod_eq_of_lt (by omega)]
  have e3 : (start_y * plane.width + start_x + data.length) % 2 ^ 32
      = start_y * plane.width + start_x + data.length := Nat.mod_eq_of_lt (by omega)
  obtain ⟨d', hs, hl, hf, hu, hr⟩ :=
    storeLoop_spec data (start_y * plane.width + start_x) hdb' data.length 0 plane.data
      (by omega) (by omega) hL hb
  have hset : (ctx.planes.set plane_idx { plane with data := d' })[plane_idx]?
      = some { plane with data := d' } := List.getElem?_set_self hk
  refine ⟨{ ctx with planes := ctx.planes.set plane_idx { plane with data := d' } },
    { plane with data := d' }, ?_, ?_, hset, rfl, rfl, rfl, hl, ?_, ?_, ?_⟩
  · simp only [pepx_store_data, ge_iff_le, Nat.not_le.mpr hidx, if_false, hp, e1, e2, e3,
      gt_iff_lt, Nat.not_lt.mpr hrange, hs]
  · simp only [pepx_retrieve_data, ge_iff_le, Nat.not_le.mpr hidx, if_false, hset, e1, e2, e3,
      gt_iff_lt, Nat.not_lt.mpr hrange, hr, List.drop_zero]
  · intro j hj
    exact hf j (by omega)
  · intro j q hq
    obtain ⟨p, hp', e, _⟩ := hu j q hq
    exact ⟨p, hp', e⟩
  · intro k hk'
    exact List.getElem?_set_ne (Ne.symm hk')

/-- The round trip on a 2 x 2 plane: two bytes stored from pixel 1 come back
unchanged. -/
theorem store_retrieve_roundtrip_witness :
    ∃ (ctx' : PEPxContext) (plane' : PEPxPlane),
      pepx_store_data
        (some { planes := [{ data := [0, 1, 2, 3, 0, 1, 2, 3, 0, 1, 2, 3, 0, 1, 2, 3],
                             width := 2, height := 2, channels := 4 }],
                plane_count := 1, dimensions := 2, bits_per_channel := 2 })
        0 1 0 [0xAB, 0xCD] 2 = some (0, some ctx') ∧
      pepx_retrieve_data (some ctx') 0 1 0 2 = some (0, [0xAB, 0xCD]) ∧
      ctx'.planes[0]? = some plane' ∧ plane'.data.length = 16 := by
  obtain ⟨ctx', plane', h1, h2, h3, _, _, _, h7, _⟩ :=
    store_retrieve_roundtrip
      { planes := [{ data := [0, 1, 2, 3, 0, 1, 2, 3, 0, 1, 2, 3, 0, 1, 2, 3],
                     width := 2, height := 2, channels := 4 }],
        plane_count := 1, dimensions := 2, bits_per_channel := 2 }
      { data := [0, 1, 2, 3, 0, 1, 2, 3, 0, 1, 2, 3, 0, 1, 2, 3],
        width := 2, height := 2, channels := 4 }
      0 1 0 [0xAB, 0xCD] (by decide) (by decide) rfl (by decide) (by decide)
  exact ⟨ctx', plane', h1, h2, h3, h7⟩

/-! ## Contexts made by `pepx_init` -/

theorem planeOK_initPlane (rand : Nat → Nat → Nat) (dimensions i : Nat)
    (hd : dimensions * dimensions * 4 < 2 ^ 32) :
    planeOK (initPlane rand dimensions i) = true := by
  have e1 : dimensions * dimensions % 2 ^ 32 = dimensions * dimensions :=
    Nat.mod_eq_of_lt (by omega)
  have e2 : dimensions * dimensions * 4 % 2 ^ 32 = dimensions * dimensions * 4 :=
    Nat.mod_eq_of_lt hd
  simp only [planeOK, initPlane, List.length_map, List.length_range, e1, e2,
    Bool.and_eq_true, decide_eq_true_eq, List.all_eq_true, List.mem_map]
  refine ⟨⟨trivial, hd⟩, ?_⟩
  rintro b ⟨j, _, rfl⟩
  exact Nat.mod_lt _ (by decide)

theorem initPlanes_spec (allocPlane : Nat → Bool) (rand : Nat → Nat → Nat)
    (dimensions : Nat) (hd : dimensions * dimensions * 4 < 2 ^ 32) :
    ∀ (n i : Nat) (ps : List PEPxPlane),
      initPlanes allocPlane rand dimensions n i = some ps →
      ps.length = n ∧ ps.all planeOK = true := by
  intro n
  induction n with
  | zero =>
    intro i ps h
    simp only [initPlanes, Option.some.injEq] at h
    subst h
    exact ⟨rfl, rfl⟩
  | succ k ih =>
    intro i ps h
    unfold initPlanes at h
    split_ifs at h
    cases hr : initPlanes allocPlane rand dimensions k (i + 1) with
    | none => rw [hr] at h; exact Option.noConfusion h
    | some qs =>
      rw [hr] at h
      simp only [Option.some.injEq] at h
      subst h
      obtain ⟨hl, hall⟩ := ih (i + 1) qs hr
      exact ⟨by simp [hl], by simp [List.all_cons, planeOK_initPlane rand dimensions i hd, hall]⟩

/-- Every context that `pepx_init` returns with code 0, for `dimensions` with
`dimensions * dimensions * 4 < 2^32`, satisfies `ctxOK`. -/
theorem pepx_init_ctxOK (allocCtx allocPlanes : Bool) (allocPlane : Nat → Bool)
    (rand : Nat → Nat → Nat) (g_ctx : Option PEPxContext) (dimensions plane_count : Nat)
    (ctx : PEPxContext) (hd : dimensions * dimensions * 4 < 2 ^ 32)
    (h : pepx_init allocCtx allocPlanes allocPlane rand g_ctx dimensions plane_count
      = (0, some ctx)) :
    ctxOK ctx = true := by
  unfold pepx_init at h
  cases g_ctx with
  | some c => simp at h
  | none =>
    simp only at h
    split_ifs at h
    · simp at h
    · simp at h
    · cases hr : initPlanes allocPlane rand dimensions plane_count 0 with
      | none => rw [hr] at h; simp at h
      | some ps =>
        rw [hr] at h
        simp only [Prod.mk.injEq, Option.some.injEq, true_and] at h
        subst h
        obtain ⟨hl, hall⟩ :=
          initPlanes_spec allocPlane rand dimensions hd plane_count 0 ps hr
        simp [ctxOK, hl, hall]

/-! ## A plane whose size wraps -/

/-- C14 (the code at the failing input): `pepx_init(32768, 1)` with every
allocation successful returns 0, but `plane_size = 32768 * 32768 * 4` wraps to
0 in `uint32_t`, so the plane of 32768 x 32768 pixels gets a buffer of 0 bytes.
Storing one byte at pixel (0, 0) satisfies the range condition
(`0 * 32768 + 0 + 1 ≤ 32768 * 32768`) and passes the range check, and then
`pepx_store_data` accesses the plane outside its buffer instead of returning
0; `pepx_retrieve_data` does the same.  With `dimensions = 40000` the buffer has
2105032704 bytes where the 40000 x 40000 pixels need 6400000000, and pixel
600000000 has `pixel_offset` 2400000000, outside the buffer. -/
theorem roundtrip_fails_on_wrapped_plane (rand : Nat → Nat → Nat) :
    pepx_init true true (fun _ => true) rand none 32768 1
      = (0, some { planes := [{ data := [], width := 32768, height := 32768, channels := 4 }],
                   plane_count := 1, dimensions := 32768, bits_per_channel := 2 }) ∧
    0 * 32768 + 0 + [0xAB].length ≤ 32768 * 32768 ∧
    pepx_store_data
      (pepx_init true true (fun _ => true) rand none 32768 1).2 0 0 0 [0xAB] 1 = none ∧
    pepx_retrieve_data
      (pepx_init true true (fun _ => true) rand none 32768 1).2 0 0 0 1 = none ∧
    (initPlane rand 40000 0).data.length = 2105032704 ∧
    600000000 + 1 ≤ 40000 * 40000 ∧
    pixelOffset 600000000 0 = 2400000000 := by
  have h : pepx_init true true (fun _ => true) rand none 32768 1
      = (0, some { planes := [{ data := [], width := 32768, height := 32768, channels := 4 }],
                   plane_count := 1, dimensions := 32768, bits_per_channel := 2 }) := by
    simp [pepx_init, initPlanes, initPlane]
  refine ⟨h, by decide, ?_, ?_, ?_, by decide, by decide⟩
  · rw [h]; decide
  · rw [h]; decide
  · simp [initPlane]

/-! ## The range check in 32-bit arithmetic -/

/-- C15 (the code at the failing input): on a 2 x 2 plane (16 bytes), with
`start_x = 0xFFFFFFFF`, `start_y = 0`, `length = 1`, the sum
`start_pixel + length` wraps to 0, so the range check passes; `pixel_offset` is
4294967292, far outside the 16 bytes, and both `pepx_store_data` and
`pepx_retrieve_data` go on to access the plane there. -/
theorem range_check_wraps :
    ctxOK { planes := [{ data := [0, 1, 2, 3, 0, 1, 2, 3, 0, 1, 2, 3, 0, 1, 2, 3],
                         width := 2, height := 2, channels := 4 }],
            plane_count := 1, dimensions := 2, bits_per_channel := 2 } = true ∧
    ¬ (((0 * 2 % 2 ^ 32 + 0xFFFFFFFF) % 2 ^ 32 + 1) % 2 ^ 32 > 2 * 2 % 2 ^ 32) ∧
    pixelOffset ((0 * 2 % 2 ^ 32 + 0xFFFFFFFF) % 2 ^ 32) 0 = 4294967292 ∧
    pepx_store_data
      (some { planes := [{ data := [0, 1, 2, 3, 0, 1, 2, 3, 0, 1, 2, 3, 0, 1, 2, 3],
                           width := 2, height := 2, channels := 4 }],
              plane_count := 1, dimensions := 2, bits_per_channel := 2 })
      0 0xFFFFFFFF 0 [0xAB] 1 = none ∧
    pepx_retrieve_data
      (some { planes := [{ data := [0, 1, 2, 3, 0, 1, 2, 3, 0, 1, 2, 3, 0, 1, 2, 3],
                           width := 2, height := 2, channels := 4 }],
              plane_count := 1, dimensions := 2, bits_per_channel := 2 })
      0 0xFFFFFFFF 0 1 = none := by
  refine ⟨by decide, by decide, by decide, by decide, by decide⟩

end PEPx
